import Mathlib

/-!
# Demo generators of `main.cc` (rpi-rgb-led-matrix)

A shallow embedding of the demo program: the C library calls the program
makes on a file (`fgets`, `sscanf`, `fread`) are modelled on a list of bytes,
the object state of `ImageScroller` and `Flame` is passed explicitly, and a
frame is the list of `SetPixel` calls it issues, in order.

Conventions.
* A byte is a `Nat` (its unsigned value); a C string is a list of bytes, read
  up to its first NUL.
* C `int` values are `Int`; where the C code would overflow, allocate a
  negative number of elements, or use a null pointer, the model returns `none`
  (undefined behaviour or abnormal termination) instead of a value.
-/

namespace LedMatrix

set_option autoImplicit false

/-! ## C library: characters, lines, formatted input -/

/-- The value returned by `sscanf` on an input failure before any conversion. -/
def EOF : Int := -1

/-- C `isspace` in the "C" locale: space, `\t`, `\n`, `\v`, `\f`, `\r`. -/
def isspace (c : Nat) : Bool := c == 32 || (9 ≤ c && c ≤ 13)

/-- C `isdigit`. -/
def isdigit (c : Nat) : Bool := 48 ≤ c && c ≤ 57

/-- Whether a value fits the 32-bit `int` of the platform. -/
def inIntRange (v : Int) : Bool := -2147483648 ≤ v && v ≤ 2147483647

/-- The bytes of a buffer that make up the C string stored in it: everything
before the first NUL. -/
def cstr (buf : List Nat) : List Nat := buf.takeWhile (fun c => c != 0)

/-- The characters `fgets` stores when it may still store `n` of them: it stops
after a newline, at end of file, or when the room is used up. Returns the
characters stored and the rest of the stream. -/
def fgetsAux : Nat → List Nat → List Nat × List Nat
  | 0, f => ([], f)
  | _ + 1, [] => ([], [])
  | n + 1, c :: f =>
    if c = 10 then ([c], f)
    else ((c :: (fgetsAux n f).1), (fgetsAux n f).2)

/-- C `fgets(buffer, len, f)` on the unread bytes `f` of a stream: `none` is the
NULL result (end of file before any character), otherwise the characters stored
(at most `len - 1`); the second component is what remains unread. -/
def fgets (len : Nat) (f : List Nat) : Option (List Nat) × List Nat :=
  match f with
  | [] => (none, [])
  | _ :: _ => (some (fgetsAux (len - 1) f).1, (fgetsAux (len - 1) f).2)

/-- The value of a run of decimal digit characters. -/
def digitsVal (ds : List Nat) : Nat := ds.foldl (fun acc d => acc * 10 + (d - 48)) 0

/-- The outcome of scanning one decimal number: an input failure (the string
ends before the number), a matching failure (no digits), a number whose value
does not fit an `int` (`overflow`: the conversion is undefined in C), or the
value and the characters after it. -/
inductive IntScan where
  | inputFailure : IntScan
  | matchFailure : IntScan
  | overflow : IntScan
  | ok (v : Int) (rest : List Nat) : IntScan
deriving DecidableEq, Repr

/-- The digits part of a decimal number, after the optional sign, with its
mathematical value. -/
def scanDigits (neg : Bool) (s : List Nat) : IntScan :=
  if s.takeWhile isdigit = [] then IntScan.matchFailure
  else IntScan.ok (if neg then -(digitsVal (s.takeWhile isdigit) : Int)
                   else (digitsVal (s.takeWhile isdigit) : Int))
        (s.dropWhile isdigit)

/-- The decimal number at the start of a string, as `scanf` and `atoi` read
it: skip white space, then an optional sign and a non-empty run of decimal
digits. The value is the mathematical one. -/
def scanNumber (s : List Nat) : IntScan :=
  match s.dropWhile isspace with
  | [] => IntScan.inputFailure
  | c :: t =>
    if c = 45 then scanDigits true t
    else if c = 43 then scanDigits false t
    else scanDigits false (c :: t)

/-- One `%d` conversion of `scanf`: the number at the start of the string when
its value fits an `int`, `overflow` when it does not. -/
def scanInt (s : List Nat) : IntScan :=
  match scanNumber s with
  | IntScan.ok v rest => if inIntRange v then IntScan.ok v rest else IntScan.overflow
  | r => r

/-- A directive of a `scanf` format string. -/
inductive Directive where
  | ws : Directive
  | lit (c : Nat) : Directive
  | int : Directive
deriving DecidableEq, Repr

/-- The run of `sscanf` over the directives of a format, given the input still
to read and the values assigned so far (latest first). Returns the return
value of `sscanf` and the values assigned, in order; `none` when a `%d`
conversion meets a number that does not fit an `int` (undefined in C). -/
def sscanfGo : List Directive → List Nat → List Int → Option (Int × List Int)
  | [], _, done => some ((done.length : Int), done.reverse)
  | Directive.ws :: fmt, s, done => sscanfGo fmt (s.dropWhile isspace) done
  | Directive.lit c :: fmt, s, done =>
    match s with
    | [] => some ((if done = [] then EOF else (done.length : Int)), done.reverse)
    | d :: t =>
      if d = c then sscanfGo fmt t done else some ((done.length : Int), done.reverse)
  | Directive.int :: fmt, s, done =>
    match scanInt s with
    | IntScan.inputFailure =>
      some ((if done = [] then EOF else (done.length : Int)), done.reverse)
    | IntScan.matchFailure => some ((done.length : Int), done.reverse)
    | IntScan.overflow => none
    | IntScan.ok v rest => sscanfGo fmt rest (v :: done)

/-- C `sscanf(s, fmt, ...)`: the return value and the values stored through the
pointer arguments, in order; `none` when its behaviour is undefined. -/
def sscanf (s : List Nat) (fmt : List Directive) : Option (Int × List Int) :=
  sscanfGo fmt s []

/-- The format `"P6 "`. -/
def fmtMagic : List Directive := [Directive.lit 80, Directive.lit 54, Directive.ws]

/-- The format `"%d %d "`. -/
def fmtDims : List Directive :=
  [Directive.int, Directive.ws, Directive.int, Directive.ws]

/-- The format `"%d "`. -/
def fmtMaxval : List Directive := [Directive.int, Directive.ws]

/-- C `atoi`: the value of the initial decimal number of the string, 0 when
there is none. The value is the mathematical one; the caller decides what a
value outside `int` means. -/
def atoi (s : List Nat) : Int :=
  match scanNumber (cstr s) with
  | IntScan.ok v _ => v
  | _ => 0

/-! ## ImageScroller -/

/-- The struct `ImageScroller::Pixel`. -/
structure Pixel where
  red : Nat
  green : Nat
  blue : Nat
deriving DecidableEq, Repr

/-- The data members of `ImageScroller`. `image_ = none` is the NULL pointer;
otherwise the list holds the elements of the allocated array. -/
structure ImageScroller where
  width_ : Int
  height_ : Int
  image_ : Option (List Pixel)
  horizontal_position_ : Nat
deriving DecidableEq, Repr

/-- The loop of `ImageScroller::ReadLine`: call `fgets` on a 256-byte buffer
until it fails or gives a line that does not start with `#`. The first
argument bounds the number of `fgets` calls; `ReadLine` passes a bound that is
never reached (every successful `fgets` consumes a byte). -/
def ReadLineLoop : Nat → List Nat → Option (List Nat) × List Nat
  | 0, f => (none, f)
  | n + 1, f =>
    match fgets 256 f with
    | (none, r) => (none, r)
    | (some l, r) => if l.head? = some 35 then ReadLineLoop n r else (some l, r)

/-- The method `ImageScroller::ReadLine(f, header_buf, sizeof(header_buf))`:
the buffer contents (`none` for NULL) and the unread rest of the stream. -/
def ReadLine (f : List Nat) : Option (List Nat) × List Nat :=
  ReadLineLoop (f.length + 1) f

/-- Group raw bytes three by three into pixels (red, green, blue); an
incomplete last group is dropped. -/
def toPixels : List Nat → List Pixel
  | r :: g :: b :: t => ⟨r, g, b⟩ :: toPixels t
  | _ => []

/-- The array `new Pixel[count]` after `fread(image_, 3, count, f)`: the bytes
the stream could deliver, then whatever the fresh allocation held (`heap i` is
the byte at offset `i` of the allocation). -/
def freadBuffer (heap : Nat → Nat) (count : Nat) (f : List Nat) : List Pixel :=
  toPixels ((f.take (3 * count)) ++
    (List.range' (f.take (3 * count)).length
      (3 * count - (f.take (3 * count)).length)).map heap)

/-- The return value of `fread(image_, 3, count, f)`: the number of complete
elements read. -/
def freadCount (count : Nat) (f : List Nat) : Nat := min count (f.length / 3)

/-- The part of `LoadPPM` after the three header lines: allocate and read the
pixels. -/
def LoadPPM_pixels (heap : Nat → Nat) (s : ImageScroller) (f : List Nat) :
    Option (Bool × ImageScroller) :=
  if !inIntRange (s.width_ * s.height_) then none
  else if s.width_ * s.height_ < 0 then none
  else
    let pixel_count := (s.width_ * s.height_).toNat
    let s1 := { s with image_ := some (freadBuffer heap pixel_count f) }
    if freadCount pixel_count f ≠ pixel_count then some (false, s1)
    else some (true, { s1 with horizontal_position_ := 0 })

/-- The part of `LoadPPM` that reads the maxval line. -/
def LoadPPM_maxval (heap : Nat → Nat) (s : ImageScroller) (f : List Nat) :
    Option (Bool × ImageScroller) :=
  match ReadLine f with
  | (none, _) => some (false, s)
  | (some line, r) =>
    match sscanf (cstr line) fmtMaxval with
    | none => none
    | some (n, [value]) =>
      if n ≠ 1 ∨ value ≠ 255 then some (false, s) else LoadPPM_pixels heap s r
    | some _ => some (false, s)

/-- The part of `LoadPPM` that reads the width/height line. `sscanf` stores
`width_` as soon as the first conversion succeeds. -/
def LoadPPM_dims (heap : Nat → Nat) (s : ImageScroller) (f : List Nat) :
    Option (Bool × ImageScroller) :=
  match ReadLine f with
  | (none, _) => some (false, s)
  | (some line, r) =>
    match sscanf (cstr line) fmtDims with
    | none => none
    | some (n, [w, h]) =>
      if n ≠ 2 then some (false, { s with width_ := w, height_ := h })
      else LoadPPM_maxval heap { s with width_ := w, height_ := h } r
    | some (_, [w]) => some (false, { s with width_ := w })
    | some _ => some (false, s)

/-- The method `ImageScroller::LoadPPM`. `file` is the content of the named
file (`none` when `fopen` fails), `heap` the content of freshly allocated
memory. The result is the returned `bool` and the object afterwards; `none`
when the call does not return or its behaviour is undefined (a NULL line
handed to `sscanf`, a header number that does not fit an `int`, `int` overflow
of `width_ * height_`, an allocation of a negative count). The messages
written to stderr are not modelled. -/
def LoadPPM (heap : Nat → Nat) (s : ImageScroller) (file : Option (List Nat)) :
    Option (Bool × ImageScroller) :=
  let s0 := { s with image_ := none }
  match file with
  | none => some (false, s0)
  | some f =>
    match ReadLine f with
    | (none, _) => none
    | (some line, r) =>
      match sscanf (cstr line) fmtMagic with
      | none => none
      | some res =>
        if res.1 = EOF then some (false, s0)
        else LoadPPM_dims heap s0 r

/-- What `getPixel` returns a reference to. -/
inductive PixelRef where
  | dummy : PixelRef
  | image (idx : Int) : PixelRef
deriving DecidableEq, Repr

/-- The method `ImageScroller::getPixel`: a reference to the static `dummy`
pixel or to `image_[x + width_ * y]`. -/
def getPixel (s : ImageScroller) (x y : Int) : PixelRef :=
  if x < 0 ∨ x > s.width_ ∨ y < 0 ∨ y > s.height_ then PixelRef.dummy
  else PixelRef.image (x + s.width_ * y)

/-- Reading through the reference returned by `getPixel`. The static `dummy`
is zero-initialised; an index outside the allocated array has no defined
value (`none`). -/
def readPixel (s : ImageScroller) : PixelRef → Option Pixel
  | PixelRef.dummy => some ⟨0, 0, 0⟩
  | PixelRef.image idx =>
    if idx < 0 then none
    else
      match s.image_ with
      | none => none
      | some img => img[idx.toNat]?

/-! ## main -/

/-- What the program is given from outside: whether `GPIO::Init` succeeds, the
file system (`fopen` of a path, `none` when it cannot be opened), the content
of freshly allocated memory, and the values the uninitialised members `width_`
and `height_` of a new `ImageScroller` happen to hold. -/
structure Env where
  ioInit : Bool
  fopen : List Nat → Option (List Nat)
  heap : Nat → Nat
  width0 : Int
  height0 : Int

/-- The generator object `image_gen` points to. -/
inductive Generator where
  | RotatingBlockGenerator : Generator
  | ImageScroller (s : ImageScroller) : Generator
  | Blend : Generator
  | Flame : Generator
  | ColorPulseGenerator : Generator
deriving DecidableEq, Repr

/-- How far `main` gets: it returns `code` before any task is started, or it
starts the display updater and the generator `g`, or its behaviour is
undefined. -/
inductive MainOutcome where
  | exit (code : Int) : MainOutcome
  | started (g : Generator) : MainOutcome
  | undefined : MainOutcome
deriving DecidableEq, Repr

/-- The `switch (demo)` of `main`. -/
def selectGenerator (env : Env) (argv : List (List Nat)) (demo : Int) : MainOutcome :=
  if demo = 0 then MainOutcome.started Generator.RotatingBlockGenerator
  else if demo = 1 then
    if argv.length > 2 then
      match LoadPPM env.heap ⟨env.width0, env.height0, none, 0⟩
          (env.fopen (argv.getD 2 [])) with
      | none => MainOutcome.undefined
      | some (false, _) => MainOutcome.exit 1
      | some (true, s) => MainOutcome.started (Generator.ImageScroller s)
    else MainOutcome.exit 1
  else if demo = 2 then MainOutcome.started Generator.Blend
  else if demo = 3 then MainOutcome.started Generator.Flame
  else MainOutcome.started Generator.ColorPulseGenerator

/-- The value of `demo` in `main`: 0, or `atoi(argv[1])` when `argc > 1`. -/
def demoOf (argv : List (List Nat)) : Int :=
  if argv.length > 1 then atoi (argv.getD 1 []) else 0

/-- The function `main` up to the point where both tasks are started; `argv`
holds the `argc` argument strings, the program name first. A numeric argument
that does not fit an `int` makes `atoi` undefined. -/
def main (env : Env) (argv : List (List Nat)) : MainOutcome :=
  if !inIntRange (demoOf argv) then MainOutcome.undefined
  else if !env.ioInit then MainOutcome.exit 1
  else selectGenerator env argv (demoOf argv)

/-! ## Canvas writes and loops -/

/-- One call `matrix_->SetPixel(x, y, r, g, b)`, with the values of the
argument expressions. -/
structure SetPixelCall where
  x : Int
  y : Int
  r : Int
  g : Int
  b : Int
deriving DecidableEq, Repr

/-- The values a loop variable takes in `for (int i = lo; i < hi; ++i)`. -/
def intRange (lo hi : Int) : List Int :=
  (List.range (hi - lo).toNat).map (fun (k : Nat) => lo + (k : Int))

/-! ## ColorPulseGenerator -/

/-- The statement `int color = (count >> 9) % 6`. -/
def pulseColor (count : Nat) : Int := (((count >>> 9) % 6 : Nat) : Int)

/-- The statements `int value = count & 0xFF; if (count & 0x100) value = 255 - value`. -/
def pulseValue (count : Nat) : Int :=
  if count &&& 0x100 ≠ 0 then 255 - ((count &&& 0xFF : Nat) : Int)
  else ((count &&& 0xFF : Nat) : Int)

/-- The `switch (color)` of `ColorPulseGenerator::Run`: the triple `(r, g, b)`. -/
def pulseRGB (count : Nat) : Int × Int × Int :=
  let color := pulseColor count
  let value := pulseValue count
  if color = 0 then (value, 0, 0)
  else if color = 1 then (value, value, 0)
  else if color = 2 then (0, value, 0)
  else if color = 3 then (0, value, value)
  else if color = 4 then (0, 0, value)
  else (value, value, value)

/-- The statement `++count` on a `uint32_t`. -/
def pulseNext (count : Nat) : Nat := (count + 1) % 4294967296

/-- One iteration of the loop of `ColorPulseGenerator::Run`, started with the
counter at `count`: the counter after `++count` and the `SetPixel` calls of the
frame, in order. -/
def pulseFrame (columns : Int) (count : Nat) : Nat × List SetPixelCall :=
  let c := pulseNext count
  (c, (intRange 0 columns).flatMap (fun x =>
        (intRange 0 32).map (fun y =>
          SetPixelCall.mk x y (pulseRGB c).1 (pulseRGB c).2.1 (pulseRGB c).2.2)))

/-! ## Flame -/

/-- The data members of `Flame` that change: the array `int buf[32 * 32]` as
the list of its 1024 elements and, for the C library's generator, the number
of `rand()` calls made so far. -/
structure Flame where
  buf : List Int
  rand_calls : Nat
deriving DecidableEq, Repr

/-- Read `buf[idx]`; `none` outside the 1024 elements. -/
def bufRead (s : Flame) (idx : Int) : Option Int :=
  if 0 ≤ idx ∧ idx < 1024 then s.buf[idx.toNat]? else none

/-- Write `buf[idx] = v`; `none` outside the 1024 elements. -/
def bufWrite (s : Flame) (idx : Int) (v : Int) : Option Flame :=
  if 0 ≤ idx ∧ idx < 1024 then some { s with buf := s.buf.set idx.toNat v }
  else none

/-- Run `body` for each value of a loop variable, in order, stopping at the
first undefined step. -/
def forEach {σ : Type} (is : List Int) (body : σ → Int → Option σ) (s : σ) : Option σ :=
  match is with
  | [] => some s
  | i :: rest =>
    match body s i with
    | none => none
    | some s1 => forEach rest body s1

/-- The constructor `Flame::Flame`: both loops over the 32 x 32 cells, started
on whatever the array held (`garbage i` in element `i`). -/
def Flame.new (garbage : Nat → Int) (rand_calls : Nat) : Option Flame :=
  forEach (intRange 0 32) (fun s x =>
    forEach (intRange 0 32) (fun s y =>
      if y = 31 then bufWrite s (y * 32 + x) 31 else bufWrite s (y * 32 + x) 0) s)
    ⟨(List.range 1024).map garbage, rand_calls⟩

/-- The method `Flame::SpreadFire`; `rand k` is the value the `k`-th call of
`rand()` returns. -/
def SpreadFire (rand : Nat → Nat) (columns : Int) (s : Flame) (src : Int) : Option Flame :=
  match bufRead s src with
  | none => none
  | some p =>
    if p < 1 then bufWrite s (src - columns) 0
    else
      bufWrite { s with rand_calls := s.rand_calls + 1 } (src - columns)
        (p - ((rand s.rand_calls : Int) % 5))

/-- The method `Flame::DoFire`. -/
def DoFire (rand : Nat → Nat) (columns rows : Int) (s : Flame) : Option Flame :=
  forEach (intRange 0 columns) (fun s x =>
    forEach (intRange 1 rows) (fun s y => SpreadFire rand columns s (y * 32 + x)) s) s

/-- The grid after `n` iterations of the loop of `Flame::Run`, each calling
`DoFire` once. -/
def fireTicks (rand : Nat → Nat) (columns rows : Int) : Nat → Flame → Option Flame
  | 0, s => some s
  | n + 1, s =>
    match DoFire rand columns rows s with
    | none => none
    | some s1 => fireTicks rand columns rows n s1

/-! ## The P6 file of an image -/

/-- The decimal digits of `n`, most significant first, put in front of `acc`;
the first argument bounds the number of digits. -/
def decimalAux : Nat → Nat → List Nat → List Nat
  | 0, _, acc => acc
  | fuel + 1, n, acc =>
    if n < 10 then (48 + n) :: acc
    else decimalAux fuel (n / 10) ((48 + n % 10) :: acc)

/-- The decimal numeral of `n` as ASCII characters. -/
def decimal (n : Nat) : List Nat := decimalAux (n + 1) n []

/-- The raw bytes of a row-major sequence of pixels: red, green, blue each. -/
def pixelBytes : List Pixel → List Nat
  | [] => []
  | p :: ps => p.red :: p.green :: p.blue :: pixelBytes ps

/-- The file `"P6\n<w> <h>\n255\n"` followed by the raw bytes of the pixels. -/
def ppmFile (w h : Nat) (ps : List Pixel) : List Nat :=
  [80, 54] ++ 10 :: ((decimal w ++ 32 :: decimal h) ++
    10 :: ([50, 53, 53] ++ 10 :: pixelBytes ps))

/-- An environment for running `main`: the GPIO initialises, no file can be
opened, fresh memory is zero. -/
def demoEnv : Env := ⟨true, fun _ => none, fun _ => 0, 0, 0⟩

/-! ## Header lines and comment lines -/

/-- The lines of a file, without their newlines, collected with the current
line (reversed) in the second argument; an unterminated last line counts when
it is not empty. -/
def splitLinesAux : List Nat → List Nat → List (List Nat)
  | [], cur => if cur = [] then [] else [cur.reverse]
  | c :: f, cur =>
    if c = 10 then cur.reverse :: splitLinesAux f [] else splitLinesAux f (c :: cur)

/-- The lines of a file, without their newlines. -/
def splitLines (f : List Nat) : List (List Nat) := splitLinesAux f []

/-- The third line of a file among those that do not begin with `#`, whatever
their length. -/
def thirdNonCommentLine (f : List Nat) : Option (List Nat) :=
  ((splitLines f).filter (fun l => l.head? != some 35))[2]?

/-- A comment line without its newline: it starts with `#` and has at most 254
characters, so that with its newline it fits one `fgets` of the 256-byte
buffer. -/
def isCommentLine (c : List Nat) : Bool :=
  c.head? == some 35 && decide (c.length ≤ 254) && c.all (fun b => b != 10)

/-- A header line without its newline: it does not start with `#` and has at
most 254 characters. -/
def isHeaderLine (l : List Nat) : Bool :=
  l.head? != some 35 && decide (l.length ≤ 254) && l.all (fun b => b != 10)

/-- The lines, each followed by a newline. -/
def joinLines : List (List Nat) → List Nat
  | [] => []
  | l :: ls => l ++ 10 :: joinLines ls

/-! ## ImageScroller::Run -/

/-- The expression `(horizontal_position_ + x) % width_` of `Run`, handed to the
`int` parameter of `getPixel`. `horizontal_position_` is a `uint32_t`, so the
sum and the remainder are computed in 32-bit unsigned arithmetic, `x` and
`width_` being converted; `none` when the converted `width_` is 0 (division by
zero). -/
def scrollColumn (s : ImageScroller) (x : Int) : Option Int :=
  if s.width_ % 4294967296 = 0 then none
  else
    let v := ((s.horizontal_position_ : Int) + x % 4294967296) % 4294967296 %
      (s.width_ % 4294967296)
    some (if v ≤ 2147483647 then v else v - 4294967296)

/-- One call `matrix_->SetPixel(disp_x, disp_y, p.red, p.green, p.blue)` of the
scroller, `src` being what the reference `p` refers to. -/
structure ScrollerCall where
  disp_x : Int
  disp_y : Int
  src : PixelRef
deriving DecidableEq, Repr

/-- The body of the inner loop of `ImageScroller::Run` for canvas column `x`
and row `y`. -/
def scrollerCall (columns : Int) (s : ImageScroller) (x y : Int) : Option ScrollerCall :=
  match scrollColumn s x with
  | none => none
  | some col => some ⟨columns - x, 31 - y, getPixel s col y⟩

/-- All the values of a list of results, when none of them is undefined. -/
def collect {α : Type} : List (Option α) → Option (List α)
  | [] => some []
  | none :: _ => none
  | some a :: rest =>
    match collect rest with
    | none => none
    | some as => some (a :: as)

/-- The two nested loops of `ImageScroller::Run`: the `SetPixel` calls of one
frame, in order. -/
def scrollerFrame (columns : Int) (s : ImageScroller) : Option (List ScrollerCall) :=
  collect ((intRange 0 columns).flatMap (fun x =>
    (intRange 0 32).map (fun y => scrollerCall columns s x y)))

/-- One iteration of the loop of `ImageScroller::Run`: nothing is drawn while
`image_` is NULL, otherwise the frame is drawn and `horizontal_position_` (a
`uint32_t`) is incremented. -/
def scrollerRunStep (columns : Int) (s : ImageScroller) :
    Option (List ScrollerCall × ImageScroller) :=
  match s.image_ with
  | none => some ([], s)
  | some _ =>
    match scrollerFrame columns s with
    | none => none
    | some calls =>
      some (calls,
        { s with horizontal_position_ := (s.horizontal_position_ + 1) % 4294967296 })

/-- The object after `n` iterations of the loop of `ImageScroller::Run`. -/
def scrollerRun (columns : Int) : Nat → ImageScroller → Option ImageScroller
  | 0, s => some s
  | n + 1, s =>
    match scrollerRunStep columns s with
    | none => none
    | some (_, s1) => scrollerRun columns n s1

/-! ## RotatingBlockGenerator -/

/-- The method `RotatingBlockGenerator::scale_col`; the result is converted to
`uint8_t`. `Run` calls it with `lo = 5` and `hi = 27` only (`hi = lo` would
divide by zero). -/
def scale_col (val lo hi : Int) : Int :=
  if val < lo then 0
  else if val > hi then 255
  else (Int.tdiv (255 * (val - lo)) (hi - lo)) % 256

/-- The colour arguments `(r, g, b)` of the `SetPixel` call `Run` makes for the
source coordinate `(x, y)`: the `if` chain of the loop body. The destination
of the call is computed in floating point and is not modelled. -/
def blockColour (x y : Int) : Int × Int × Int :=
  if x ≥ 5 ∧ x < 28 ∧ y ≥ 5 ∧ y < 28 then
    (scale_col x 5 27, 255 - scale_col y 5 27, scale_col y 5 27)
  else if x = 16 ∧ y = 3 then (255, 0, 0)
  else if x = 3 ∧ y = 16 then (0, 255, 0)
  else if x = 29 ∧ y = 16 then (0, 0, 255)
  else (0, 0, 0)

/-- The source coordinates `Run` visits in one frame, in order. -/
def blockCoordinates : List (Int × Int) :=
  (intRange (-8) 40).flatMap (fun x => (intRange (-8) 40).map (fun y => (x, y)))

/-! ## Flame::Run -/

/-- The table `Flame::colours`. -/
def colours : List Nat :=
  [0x020202, 0x030303, 0x2F0F07, 0x470F07, 0x571707, 0x671F07, 0x771F07, 0x8F2707,
   0x9F2F07, 0xAF3F07, 0xBF4707, 0xC74707, 0xDF4F07, 0xDF5707, 0xDF5707, 0xD75F07,
   0xD7670F, 0xCF6F0F, 0xCF770F, 0xCF7F0F, 0xCF8717, 0xC78717, 0xC7971F, 0xBF9F1F,
   0xBFA727, 0xBFAF2F, 0xB7AF2F, 0xB7B737, 0xCFCF6F, 0xDFDF9F, 0xEFEFC7, 0xFFFFFF]

/-- The body of the inner loop of `Flame::Run` for the pixel `(x, y)`:
`r = (colour >> 16) & 0xFF; b = (colour >> 8) & 0xFF; g = colour & 0xFF;` and
then `SetPixel(x, y, r, g, b)`. `none` when `buf` or `colours` is indexed
outside its elements. -/
def flamePixel (columns : Int) (s : Flame) (x y : Int) : Option SetPixelCall :=
  match bufRead s (y * columns + x) with
  | none => none
  | some colour_idx =>
    if 0 ≤ colour_idx ∧ colour_idx < 32 then
      match colours[colour_idx.toNat]? with
      | none => none
      | some colour =>
        some ⟨x, y, (((colour >>> 16) &&& 0xFF : Nat) : Int), ((colour &&& 0xFF : Nat) : Int),
          (((colour >>> 8) &&& 0xFF : Nat) : Int)⟩
    else none

/-- The two nested loops of `Flame::Run` after `DoFire`: the `SetPixel` calls of
one frame, in order. -/
def flameFrame (columns rows : Int) (s : Flame) : Option (List SetPixelCall) :=
  collect ((intRange 0 columns).flatMap (fun x =>
    (intRange 0 rows).map (fun y => flamePixel columns s x y)))

/-- The brightness of a palette entry read as `0xRRGGBB`: the sum of its three
channels. -/
def brightness (colour : Nat) : Nat :=
  ((colour >>> 16) &&& 0xFF) + ((colour >>> 8) &&& 0xFF) + (colour &&& 0xFF)

/-- A brightness with the weights `wr`, `wg`, `wb` on the red, green and blue
channel of a palette entry read as `0xRRGGBB`. -/
def weightedBrightness (wr wg wb : Nat) (colour : Nat) : Nat :=
  wr * ((colour >>> 16) &&& 0xFF) + wg * ((colour >>> 8) &&& 0xFF) + wb * (colour &&& 0xFF)

/-- The 2 x 2 all-red image as `LoadPPM` leaves it, at scroll position `k`. -/
def redImage (k : Nat) : ImageScroller :=
  ⟨2, 2, some [Pixel.mk 255 0 0, Pixel.mk 255 0 0, Pixel.mk 255 0 0, Pixel.mk 255 0 0], k⟩

/-! # Theorems -/

/-! ## Reading lines -/

theorem fgetsAux_rest_length (n : Nat) (f : List Nat) :
    (fgetsAux n f).2.length ≤ f.length := by
  induction n generalizing f with
  | zero => simp [fgetsAux]
  | succ n ih =>
    cases f with
    | nil => simp [fgetsAux]
    | cons c f =>
      by_cases hc : c = 10
      · simp [fgetsAux, hc]
      · simp only [fgetsAux, hc, if_false, List.length_cons]
        exact Nat.le_succ_of_le (ih f)

theorem fgetsAux_succ_rest_length (n : Nat) (c : Nat) (f : List Nat) :
    (fgetsAux (n + 1) (c :: f)).2.length ≤ f.length := by
  by_cases hc : c = 10
  · simp [fgetsAux, hc]
  · simp only [fgetsAux, hc, if_false]
    exact fgetsAux_rest_length n f

theorem ReadLineLoop_nil (n : Nat) : ReadLineLoop n [] = (none, []) := by
  cases n <;> rfl

theorem ReadLineLoop_cons (n c : Nat) (f : List Nat) :
    ReadLineLoop (n + 1) (c :: f) =
      if (fgetsAux 255 (c :: f)).1.head? = some 35
      then ReadLineLoop n (fgetsAux 255 (c :: f)).2
      else (some (fgetsAux 255 (c :: f)).1, (fgetsAux 255 (c :: f)).2) := rfl

/-- The bound on the number of `fgets` calls is immaterial once it exceeds the
number of unread bytes. -/
theorem ReadLineLoop_fuel (n : Nat) (f : List Nat) (h : f.length < n) :
    ReadLineLoop n f = ReadLine f := by
  induction n using Nat.strong_induction_on generalizing f with
  | _ n ih =>
    cases n with
    | zero => omega
    | succ n =>
      cases f with
      | nil => rw [ReadLineLoop_nil, ReadLine, ReadLineLoop_nil]
      | cons c f =>
        have hlen : (fgetsAux 255 (c :: f)).2.length ≤ f.length :=
          fgetsAux_succ_rest_length 254 c f
        simp only [List.length_cons] at h
        rw [ReadLine, List.length_cons, ReadLineLoop_cons, ReadLineLoop_cons]
        by_cases hh : (fgetsAux 255 (c :: f)).1.head? = some 35
        · rw [if_pos hh, if_pos hh, ih n (Nat.lt_succ_self n) _ (by omega),
            ih (f.length + 1) (by omega) _ (by omega)]
        · rw [if_neg hh, if_neg hh]

theorem fgetsAux_line (n : Nat) (l rest : List Nat) (hl : l.length < n)
    (hnl : ∀ c ∈ l, c ≠ 10) :
    fgetsAux n (l ++ 10 :: rest) = (l ++ [10], rest) := by
  induction l generalizing n with
  | nil =>
    cases n with
    | zero => simp at hl
    | succ n => simp [fgetsAux]
  | cons c l ih =>
    cases n with
    | zero => simp at hl
    | succ n =>
      have hc : c ≠ 10 := hnl c (List.mem_cons_self _ _)
      have := ih n (by simpa using hl) (fun d hd => hnl d (List.mem_cons_of_mem _ hd))
      simp [fgetsAux, hc, this]

/-- A line of at most 254 characters before its newline that does not start
with `#` is what `ReadLine` returns. -/
theorem ReadLine_line (l rest : List Nat) (hl : l.length ≤ 254)
    (hnl : ∀ c ∈ l, c ≠ 10) (hh : l.head? ≠ some 35) :
    ReadLine (l ++ 10 :: rest) = (some (l ++ [10]), rest) := by
  have h1 := fgetsAux_line 255 l rest (by omega) hnl
  cases l with
  | nil => rfl
  | cons c l =>
    have hc : c ≠ 35 := by simpa using hh
    simp only [List.cons_append] at h1
    rw [ReadLine, List.cons_append, List.length_cons, ReadLineLoop_cons, h1]
    simp [hc]

/-- A comment line of at most 254 characters before its newline is skipped. -/
theorem ReadLine_comment (l rest : List Nat) (hl : l.length ≤ 254)
    (hnl : ∀ c ∈ l, c ≠ 10) (hh : l.head? = some 35) :
    ReadLine (l ++ 10 :: rest) = ReadLine rest := by
  have h1 := fgetsAux_line 255 l rest (by omega) hnl
  cases l with
  | nil => simp at hh
  | cons c l =>
    have hc : c = 35 := by simpa using hh
    simp only [List.cons_append] at h1
    rw [ReadLine, List.cons_append, List.length_cons, ReadLineLoop_cons, h1]
    simp only [List.head?_cons, hc, if_true]
    exact ReadLineLoop_fuel _ _ (by simp; omega)

/-! ## Decimal numerals and `%d` -/

theorem decimalAux_append (fuel n : Nat) (acc : List Nat) :
    decimalAux fuel n acc = decimalAux fuel n [] ++ acc := by
  induction fuel generalizing n acc with
  | zero => simp [decimalAux]
  | succ fuel ih =>
    by_cases h : n < 10
    · simp [decimalAux, h]
    · simp only [decimalAux, h, if_false]
      rw [ih (n / 10) ((48 + n % 10) :: acc), ih (n / 10) [48 + n % 10]]
      simp

theorem decimalAux_isdigit (fuel n : Nat) :
    ∀ c ∈ decimalAux fuel n [], isdigit c = true := by
  induction fuel generalizing n with
  | zero => simp [decimalAux]
  | succ fuel ih =>
    intro c hc
    by_cases h : n < 10
    · simp only [decimalAux, h, if_true, List.mem_singleton] at hc
      subst hc
      simp only [isdigit, Bool.and_eq_true, decide_eq_true_eq]
      omega
    · simp only [decimalAux, h, if_false] at hc
      rw [decimalAux_append] at hc
      rcases List.mem_append.mp hc with h1 | h1
      · exact ih _ c h1
      · simp only [List.mem_singleton] at h1
        subst h1
        simp only [isdigit, Bool.and_eq_true, decide_eq_true_eq]
        omega

theorem digitsVal_append_singleton (ds : List Nat) (d : Nat) :
    digitsVal (ds ++ [d]) = digitsVal ds * 10 + (d - 48) := by
  simp [digitsVal, List.foldl_append]

theorem digitsVal_decimalAux (fuel n : Nat) (h : n < fuel) :
    digitsVal (decimalAux fuel n []) = n := by
  induction fuel generalizing n with
  | zero => omega
  | succ fuel ih =>
    by_cases h10 : n < 10
    · simp [decimalAux, h10, digitsVal]
    · simp only [decimalAux, h10, if_false]
      rw [decimalAux_append, digitsVal_append_singleton, ih (n / 10) (by omega)]
      omega

theorem decimalAux_ne_nil (fuel n : Nat) : decimalAux (fuel + 1) n [] ≠ [] := by
  by_cases h10 : n < 10
  · simp [decimalAux, h10]
  · simp only [decimalAux, h10, if_false]
    rw [decimalAux_append]
    simp

theorem decimalAux_length (fuel n k : Nat) (h : n < 10 ^ (k + 1)) :
    (decimalAux fuel n []).length ≤ k + 1 := by
  induction fuel generalizing n k with
  | zero => simp [decimalAux]
  | succ fuel ih =>
    by_cases h10 : n < 10
    · simp [decimalAux, h10]
    · simp only [decimalAux, h10, if_false]
      rw [decimalAux_append, List.length_append, List.length_singleton]
      cases k with
      | zero => simp at h; omega
      | succ k =>
        have : n / 10 < 10 ^ (k + 1) := by
          rw [Nat.div_lt_iff_lt_mul (by decide)]
          rw [pow_succ] at h
          exact h
        have := ih (n / 10) k this
        omega

theorem decimal_isdigit (n : Nat) : ∀ c ∈ decimal n, isdigit c = true :=
  decimalAux_isdigit (n + 1) n

theorem decimal_ne_nil (n : Nat) : decimal n ≠ [] := decimalAux_ne_nil n n

theorem digitsVal_decimal (n : Nat) : digitsVal (decimal n) = n :=
  digitsVal_decimalAux (n + 1) n (Nat.lt_succ_self n)

theorem decimal_length (n : Nat) (h : n ≤ 2147483647) : (decimal n).length ≤ 10 :=
  decimalAux_length (n + 1) n 9 (by omega)

theorem takeWhile_isdigit_append (ds : List Nat) (c : Nat) (rest : List Nat)
    (hds : ∀ d ∈ ds, isdigit d = true) (hc : isdigit c = false) :
    (ds ++ c :: rest).takeWhile isdigit = ds := by
  induction ds with
  | nil => simp [List.takeWhile, hc]
  | cons d ds ih =>
    have hd := hds d (List.mem_cons_self _ _)
    simp only [List.cons_append, List.takeWhile_cons, hd, if_true]
    rw [ih (fun e he => hds e (List.mem_cons_of_mem _ he))]

theorem dropWhile_isdigit_append (ds : List Nat) (c : Nat) (rest : List Nat)
    (hds : ∀ d ∈ ds, isdigit d = true) (hc : isdigit c = false) :
    (ds ++ c :: rest).dropWhile isdigit = c :: rest := by
  induction ds with
  | nil => simp [List.dropWhile, hc]
  | cons d ds ih =>
    have hd := hds d (List.mem_cons_self _ _)
    simp only [List.cons_append, List.dropWhile_cons, hd, if_true]
    rw [ih (fun e he => hds e (List.mem_cons_of_mem _ he))]

theorem isdigit_not_isspace (c : Nat) (h : isdigit c = true) : isspace c = false := by
  simp only [isdigit, Bool.and_eq_true, decide_eq_true_eq] at h
  simp only [isspace, Bool.or_eq_false_iff, beq_eq_false_iff_ne, Bool.and_eq_false_iff,
    decide_eq_false_iff_not]
  omega

/-- A `%d` conversion reads a non-empty digit run back to its value and stops
at the first character that is not a digit. -/
theorem scanNumber_digits (ds : List Nat) (c : Nat) (rest : List Nat) (hne : ds ≠ [])
    (hds : ∀ d ∈ ds, isdigit d = true) (hc : isdigit c = false) :
    scanNumber (ds ++ c :: rest) = IntScan.ok (digitsVal ds) (c :: rest) := by
  cases ds with
  | nil => exact absurd rfl hne
  | cons d ds =>
    have hd := hds d (List.mem_cons_self _ _)
    have hsp := isdigit_not_isspace d hd
    have h45 : d ≠ 45 := by
      intro h; subst h; revert hd; decide
    have h43 : d ≠ 43 := by
      intro h; subst h; revert hd; decide
    have htw := takeWhile_isdigit_append (d :: ds) c rest hds hc
    have hdw := dropWhile_isdigit_append (d :: ds) c rest hds hc
    simp only [List.cons_append] at htw hdw
    simp only [scanNumber, List.cons_append, List.dropWhile_cons, hsp, Bool.false_eq_true,
      if_false, h45, h43, scanDigits, htw, hdw]
    simp

theorem scanInt_digits (ds : List Nat) (c : Nat) (rest : List Nat) (hne : ds ≠ [])
    (hds : ∀ d ∈ ds, isdigit d = true) (hc : isdigit c = false)
    (hr : digitsVal ds ≤ 2147483647) :
    scanInt (ds ++ c :: rest) = IntScan.ok (digitsVal ds) (c :: rest) := by
  have hin : inIntRange ((digitsVal ds : Nat) : Int) = true := by
    simp only [inIntRange, Bool.and_eq_true, decide_eq_true_eq]
    omega
  simp only [scanInt, scanNumber_digits ds c rest hne hds hc, hin, if_true]

theorem cstr_eq_self (l : List Nat) (h : ∀ c ∈ l, c ≠ 0) : cstr l = l := by
  unfold cstr
  rw [List.takeWhile_eq_self_iff]
  intro c hc
  simpa using h c hc

theorem isdigit_ne_zero (c : Nat) (h : isdigit c = true) : c ≠ 0 := by
  intro h0; subst h0; revert h; decide

theorem isdigit_ne_newline (c : Nat) (h : isdigit c = true) : c ≠ 10 := by
  intro h0; subst h0; revert h; decide

/-- The dimension line `"<w> <h>\n"` scans to its two numbers. -/
theorem sscanf_dims (w h : Nat) (hwr : w ≤ 2147483647) (hhr : h ≤ 2147483647) :
    sscanf (decimal w ++ 32 :: decimal h ++ [10]) fmtDims =
      some (2, [(w : Int), (h : Int)]) := by
  have hw := scanInt_digits (decimal w) 32 (decimal h ++ [10]) (decimal_ne_nil w)
    (decimal_isdigit w) (by decide) (by rw [digitsVal_decimal]; exact hwr)
  have hh := scanInt_digits (decimal h) 10 [] (decimal_ne_nil h)
    (decimal_isdigit h) (by decide) (by rw [digitsVal_decimal]; exact hhr)
  have hsp : (32 :: (decimal h ++ [10])).dropWhile isspace = decimal h ++ [10] := by
    cases hd : decimal h with
    | nil => exact absurd hd (decimal_ne_nil h)
    | cons d ds =>
      have : isdigit d = true := decimal_isdigit h d (by rw [hd]; exact List.mem_cons_self _ _)
      have hs := isdigit_not_isspace d this
      have h32 : isspace 32 = true := by decide
      simp only [List.cons_append, List.dropWhile_cons, h32, hs, if_true, Bool.false_eq_true,
        if_false]
  simp only [sscanf, fmtDims, sscanfGo, List.append_assoc, List.cons_append, hw, hsp, hh,
    digitsVal_decimal]
  have h10 : isspace 10 = true := by decide
  simp [List.dropWhile, h10]

/-! ## Pixel data -/

theorem toPixels_pixelBytes (ps : List Pixel) : toPixels (pixelBytes ps) = ps := by
  induction ps with
  | nil => rfl
  | cons p ps ih => simp [pixelBytes, toPixels, ih]

theorem pixelBytes_length (ps : List Pixel) : (pixelBytes ps).length = 3 * ps.length := by
  induction ps with
  | nil => rfl
  | cons p ps ih => simp [pixelBytes, ih]; omega

theorem freadBuffer_pixelBytes (heap : Nat → Nat) (ps : List Pixel) :
    freadBuffer heap ps.length (pixelBytes ps) = ps := by
  have h : (pixelBytes ps).take (3 * ps.length) = pixelBytes ps :=
    List.take_of_length_le (by rw [pixelBytes_length])
  simp [freadBuffer, h, pixelBytes_length, toPixels_pixelBytes]

theorem freadCount_pixelBytes (ps : List Pixel) :
    freadCount ps.length (pixelBytes ps) = ps.length := by
  simp [freadCount, pixelBytes_length]

theorem inIntRange_natCast (n : Nat) (h : n ≤ 2147483647) : inIntRange (n : Int) = true := by
  simp only [inIntRange, Bool.and_eq_true, decide_eq_true_eq]
  omega

theorem LoadPPM_pixels_pixelBytes (heap : Nat → Nat) (s : ImageScroller) (w h : Nat)
    (ps : List Pixel) (hw : s.width_ = w) (hh : s.height_ = h)
    (hr : w * h ≤ 2147483647) (hps : ps.length = w * h) :
    LoadPPM_pixels heap s (pixelBytes ps) =
      some (true, { s with image_ := some ps, horizontal_position_ := 0 }) := by
  have hprod : s.width_ * s.height_ = ((ps.length : Nat) : Int) := by
    rw [hw, hh, hps]; push_cast; rfl
  have hin := inIntRange_natCast ps.length (by omega)
  have hneg : ¬ ((ps.length : Nat) : Int) < 0 := by omega
  simp only [LoadPPM_pixels, hprod, hin, Bool.not_true, Bool.false_eq_true, if_false, hneg,
    Int.toNat_ofNat, freadCount_pixelBytes, freadBuffer_pixelBytes, ne_eq,
    not_true_eq_false]

theorem sscanf_maxval_255 :
    sscanf (cstr [50, 53, 53, 10]) fmtMaxval = some (1, [255]) := by
  decide

theorem sscanf_magic_P6 : sscanf (cstr [80, 54, 10]) fmtMagic = some (0, []) := by
  decide

theorem getPixel_inside (w h : Nat) (img : Option (List Pixel)) (pos : Nat) (x y : Nat)
    (hx : x < w) (hy : y < h) :
    getPixel ⟨w, h, img, pos⟩ x y = PixelRef.image (((y * w + x : Nat)) : Int) := by
  have h1 : ¬ ((x : Int) < 0 ∨ (x : Int) > (w : Int) ∨ (y : Int) < 0 ∨ (y : Int) > (h : Int)) := by
    omega
  simp only [getPixel, h1, if_false]
  congr 1
  push_cast
  ring

theorem readPixel_image (w h : Int) (ps : List Pixel) (pos : Nat) (i : Nat) :
    readPixel ⟨w, h, some ps, pos⟩ (PixelRef.image (i : Int)) = ps[i]? := by
  have h1 : ¬ ((i : Int) < 0) := by omega
  simp [readPixel, h1]

theorem index_lt_of_lt (w h x y : Nat) (hx : x < w) (hy : y < h) : y * w + x < w * h := by
  calc y * w + x < y * w + w := by omega
    _ = (y + 1) * w := by ring
    _ ≤ h * w := Nat.mul_le_mul_right w hy
    _ = w * h := Nat.mul_comm h w

theorem dimsLine_props (w h : Nat) (hw : w ≤ 2147483647) (hh : h ≤ 2147483647) :
    (decimal w ++ 32 :: decimal h).length ≤ 254 ∧
    (∀ c ∈ decimal w ++ 32 :: decimal h, c ≠ 10) ∧
    (∀ c ∈ decimal w ++ 32 :: decimal h, c ≠ 0) ∧
    (decimal w ++ 32 :: decimal h).head? ≠ some 35 := by
  have lw := decimal_length w hw
  have lh := decimal_length h hh
  refine ⟨by simp; omega, ?_, ?_, ?_⟩
  · intro c hc
    rcases List.mem_append.mp hc with h1 | h1
    · exact isdigit_ne_newline c (decimal_isdigit w c h1)
    · rcases List.mem_cons.mp h1 with h2 | h2
      · omega
      · exact isdigit_ne_newline c (decimal_isdigit h c h2)
  · intro c hc
    rcases List.mem_append.mp hc with h1 | h1
    · exact isdigit_ne_zero c (decimal_isdigit w c h1)
    · rcases List.mem_cons.mp h1 with h2 | h2
      · omega
      · exact isdigit_ne_zero c (decimal_isdigit h c h2)
  · cases hd : decimal w with
    | nil => exact absurd hd (decimal_ne_nil w)
    | cons d ds =>
      have hdig : isdigit d = true :=
        decimal_isdigit w d (by rw [hd]; exact List.mem_cons_self _ _)
      simp only [List.cons_append, List.head?_cons, ne_eq, Option.some.injEq]
      intro h35; subst h35; revert hdig; decide

/-- Loading the P6 file of a `w` x `h` image: the three header lines are
accepted and the pixel array is the image. -/
theorem LoadPPM_ppmFile (heap : Nat → Nat) (s : ImageScroller) (w h : Nat) (ps : List Pixel)
    (hw : w ≤ 2147483647) (hh : h ≤ 2147483647) (hr : w * h ≤ 2147483647)
    (hps : ps.length = w * h) :
    LoadPPM heap s (some (ppmFile w h ps)) = some (true, ⟨w, h, some ps, 0⟩) := by
  obtain ⟨hlen, hnl, hnz, hhead⟩ := dimsLine_props w h hw hh
  have e1 : ReadLine (ppmFile w h ps) =
      (some [80, 54, 10], (decimal w ++ 32 :: decimal h) ++ 10 :: ([50, 53, 53] ++
        10 :: pixelBytes ps)) :=
    ReadLine_line [80, 54] _ (by decide) (by decide) (by decide)
  have e2 : ReadLine ((decimal w ++ 32 :: decimal h) ++ 10 :: ([50, 53, 53] ++
        10 :: pixelBytes ps)) =
      (some ((decimal w ++ 32 :: decimal h) ++ [10]), [50, 53, 53] ++ 10 :: pixelBytes ps) :=
    ReadLine_line _ _ hlen hnl hhead
  have e3 : ReadLine ([50, 53, 53] ++ 10 :: pixelBytes ps) =
      (some [50, 53, 53, 10], pixelBytes ps) :=
    ReadLine_line [50, 53, 53] _ (by decide) (by decide) (by decide)
  have c2 : cstr ((decimal w ++ 32 :: decimal h) ++ [10]) =
      decimal w ++ 32 :: decimal h ++ [10] := by
    rw [cstr_eq_self]
    intro c hc
    rcases List.mem_append.mp hc with h1 | h1
    · exact hnz c h1
    · simp only [List.mem_singleton] at h1; omega
  have hpix := LoadPPM_pixels_pixelBytes heap ⟨w, h, none, s.horizontal_position_⟩ w h ps
    rfl rfl hr hps
  have hE : ¬ ((0 : Int) = EOF) := by decide
  simp only [LoadPPM, e1, sscanf_magic_P6, hE, if_false, LoadPPM_dims, e2, c2,
    sscanf_dims w h hw hh, LoadPPM_maxval, e3, sscanf_maxval_255]
  simpa using hpix

/-! ## Claims on `main` and `LoadPPM` -/

/-- C1 (as stated, refuted): run without any argument, `main` leaves `demo` at
its initial value 0 and starts the Rotating Block generator, not Color Pulse. -/
theorem main_no_argument_starts_rotating_block :
    main demoEnv [[100, 101, 109, 111]] =
        MainOutcome.started Generator.RotatingBlockGenerator ∧
      main demoEnv [[100, 101, 109, 111]] ≠
        MainOutcome.started Generator.ColorPulseGenerator := by
  decide

/-- C1 (amended): when the GPIO initialises and the first argument fits an
`int`, `main` starts the Rotating Block when there is no argument or the
argument parses to 0; for 1 it exits with code 1 when there is no second
argument and otherwise starts the Image Scroller exactly when `LoadPPM` of the
second argument returns true (exit code 1 when it returns false); it starts
Blend for 2, Flame for 3 and Color Pulse for every other value. -/
theorem main_selects_generator (env : Env) (argv : List (List Nat))
    (hio : env.ioInit = true) (hint : inIntRange (demoOf argv) = true) :
    ((argv.length ≤ 1 ∨ atoi (argv.getD 1 []) = 0) →
      main env argv = MainOutcome.started Generator.RotatingBlockGenerator) ∧
    (argv.length = 2 → atoi (argv.getD 1 []) = 1 → main env argv = MainOutcome.exit 1) ∧
    (2 < argv.length → atoi (argv.getD 1 []) = 1 →
      main env argv =
        match LoadPPM env.heap ⟨env.width0, env.height0, none, 0⟩
            (env.fopen (argv.getD 2 [])) with
        | none => MainOutcome.undefined
        | some (false, _) => MainOutcome.exit 1
        | some (true, s) => MainOutcome.started (Generator.ImageScroller s)) ∧
    (1 < argv.length → atoi (argv.getD 1 []) = 2 →
      main env argv = MainOutcome.started Generator.Blend) ∧
    (1 < argv.length → atoi (argv.getD 1 []) = 3 →
      main env argv = MainOutcome.started Generator.Flame) ∧
    (1 < argv.length → atoi (argv.getD 1 []) ≠ 0 → atoi (argv.getD 1 []) ≠ 1 →
      atoi (argv.getD 1 []) ≠ 2 → atoi (argv.getD 1 []) ≠ 3 →
      main env argv = MainOutcome.started Generator.ColorPulseGenerator) := by
  have hmain : main env argv = selectGenerator env argv (demoOf argv) := by
    simp [main, hio, hint]
  rw [hmain]
  refine ⟨?_, ?_, ?_, ?_, ?_, ?_⟩
  · intro h
    have hd : demoOf argv = 0 := by
      unfold demoOf
      rcases h with h | h
      · rw [if_neg (by omega)]
      · split
        · exact h
        · rfl
    simp [selectGenerator, hd]
  · intro hl ha
    have hd : demoOf argv = 1 := by
      unfold demoOf
      rw [if_pos (by omega)]; exact ha
    have h2 : ¬ argv.length > 2 := by omega
    simp [selectGenerator, hd, h2]
  · intro hl ha
    have hd : demoOf argv = 1 := by
      unfold demoOf
      rw [if_pos (by omega)]; exact ha
    have h2 : argv.length > 2 := hl
    simp only [selectGenerator, hd, h2, if_true]
    simp
  · intro hl ha
    have hd : demoOf argv = 2 := by
      unfold demoOf
      rw [if_pos hl]; exact ha
    simp [selectGenerator, hd]
  · intro hl ha
    have hd : demoOf argv = 3 := by
      unfold demoOf
      rw [if_pos hl]; exact ha
    simp [selectGenerator, hd]
  · intro hl h0 h1 h2 h3
    have hd : demoOf argv = atoi (argv.getD 1 []) := by
      unfold demoOf
      rw [if_pos hl]
    rw [hd]
    unfold selectGenerator
    rw [if_neg h0, if_neg h1, if_neg h2, if_neg h3]

/-- C1 (amended), at the command line `demo 3`: the Flame generator starts. -/
theorem main_selects_generator_witness :
    (demoEnv.ioInit = true ∧ inIntRange (demoOf [[100, 101, 109, 111], [51]]) = true) ∧
      main demoEnv [[100, 101, 109, 111], [51]] = MainOutcome.started Generator.Flame :=
  ⟨⟨by decide, by decide⟩,
    (main_selects_generator demoEnv [[100, 101, 109, 111], [51]] (by decide)
      (by decide)).2.2.2.2.1 (by decide) (by decide)⟩

/-- C2: for every `w ≥ 1`, `h ≥ 1` with `w * h` in `int` range and every
sequence of `w * h` pixels, `LoadPPM` of the file `"P6\n<w> <h>\n255\n"`
followed by the raw bytes returns true with `width_ = w`, `height_ = h`, and
`getPixel(x, y)` for `x < w`, `y < h` refers to the image element `y * w + x`
(not to the black dummy), which holds the input's triple at that position. -/
theorem LoadPPM_round_trip (heap : Nat → Nat) (s : ImageScroller) (w h : Nat)
    (ps : List Pixel) (hw : 1 ≤ w) (hh : 1 ≤ h) (hr : w * h ≤ 2147483647)
    (hps : ps.length = w * h) :
    LoadPPM heap s (some (ppmFile w h ps)) = some (true, ⟨w, h, some ps, 0⟩) ∧
    ∀ x y : Nat, x < w → y < h →
      getPixel ⟨w, h, some ps, 0⟩ x y = PixelRef.image ((y * w + x : Nat) : Int) ∧
      y * w + x < ps.length ∧
      readPixel ⟨w, h, some ps, 0⟩ (getPixel ⟨w, h, some ps, 0⟩ x y) = ps[y * w + x]? := by
  have hw1 : w ≤ w * h := Nat.le_mul_of_pos_right w hh
  have hh1 : h ≤ w * h := Nat.le_mul_of_pos_left h hw
  refine ⟨LoadPPM_ppmFile heap s w h ps (by omega) (by omega) hr hps, ?_⟩
  intro x y hx hy
  have hg := getPixel_inside w h (some ps) 0 x y hx hy
  refine ⟨hg, ?_, ?_⟩
  · rw [hps]; exact index_lt_of_lt w h x y hx hy
  · rw [hg, readPixel_image]

/-- C2, on the 2 x 2 image with the byte values 1 to 12: the file loads with
width 2 and height 2 and pixel (1, 1) is the fourth triple. -/
theorem LoadPPM_round_trip_witness :
    (1 ≤ 2 ∧ 1 ≤ 2 ∧ 2 * 2 ≤ 2147483647 ∧
      [Pixel.mk 1 2 3, Pixel.mk 4 5 6, Pixel.mk 7 8 9, Pixel.mk 10 11 12].length = 2 * 2) ∧
    LoadPPM (fun _ => 0) ⟨0, 0, none, 7⟩
        (some [80, 54, 10, 50, 32, 50, 10, 50, 53, 53, 10, 1, 2, 3, 4, 5, 6, 7, 8, 9, 10,
          11, 12]) =
      some (true, ⟨2, 2,
        some [Pixel.mk 1 2 3, Pixel.mk 4 5 6, Pixel.mk 7 8 9, Pixel.mk 10 11 12], 0⟩) ∧
    readPixel ⟨2, 2, some [Pixel.mk 1 2 3, Pixel.mk 4 5 6, Pixel.mk 7 8 9, Pixel.mk 10 11 12], 0⟩
        (getPixel
          ⟨2, 2, some [Pixel.mk 1 2 3, Pixel.mk 4 5 6, Pixel.mk 7 8 9, Pixel.mk 10 11 12], 0⟩
          1 1) =
      some (Pixel.mk 10 11 12) :=
  ⟨⟨by decide, by decide, by decide, by decide⟩,
    (LoadPPM_round_trip (fun _ => 0) ⟨0, 0, none, 7⟩ 2 2
      [Pixel.mk 1 2 3, Pixel.mk 4 5 6, Pixel.mk 7 8 9, Pixel.mk 10 11 12]
      (by decide) (by decide) (by decide) (by decide)).1,
    ((LoadPPM_round_trip (fun _ => 0) ⟨0, 0, none, 7⟩ 2 2
      [Pixel.mk 1 2 3, Pixel.mk 4 5 6, Pixel.mk 7 8 9, Pixel.mk 10 11 12]
      (by decide) (by decide) (by decide) (by decide)).2 1 1 (by decide) (by decide)).2.2⟩

/-- C3 (the code at the failing input): a file whose first line is `P5` is
loaded as if it were a P6 file, `LoadPPM` returns true: `sscanf(line, "P6 ")`
returns 0 on a mismatch, and only `EOF` is refused. -/
theorem LoadPPM_accepts_P5 :
    sscanf (cstr [80, 53, 10]) fmtMagic = some (0, []) ∧
    LoadPPM (fun _ => 0) ⟨0, 0, none, 0⟩
        (some [80, 53, 10, 49, 32, 49, 10, 50, 53, 53, 10, 255, 0, 0]) =
      some (true, ⟨1, 1, some [Pixel.mk 255 0 0], 0⟩) := by
  decide

/-- The format `"P6 "` has no conversion: `sscanf` with it is always defined
and returns `EOF` or 0. -/
theorem sscanf_magic_some (line : List Nat) :
    ∃ res, sscanf line fmtMagic = some res := by
  simp only [sscanf, fmtMagic, sscanfGo]
  cases line with
  | nil => exact ⟨_, rfl⟩
  | cons c t =>
    simp only
    split
    · cases t with
      | nil => exact ⟨_, rfl⟩
      | cons d u =>
        simp only
        split
        · exact ⟨_, rfl⟩
        · exact ⟨_, rfl⟩
    · exact ⟨_, rfl⟩

theorem LoadPPM_of_line (heap : Nat → Nat) (s : ImageScroller) (f line r : List Nat)
    (res : Int × List Int) (h : ReadLine f = (some line, r))
    (hm : sscanf (cstr line) fmtMagic = some res) :
    LoadPPM heap s (some f) =
      if res.1 = EOF then some (false, { s with image_ := none })
      else LoadPPM_dims heap { s with image_ := none } r := by
  unfold LoadPPM
  simp only [h, hm]

/-- C5 (the code at the failing input): on a 2 x 2 header followed by only four
bytes `LoadPPM` returns false but leaves `image_` pointing to the new array,
holding the bytes read and then whatever the allocation contained. -/
theorem LoadPPM_short_data_keeps_buffer :
    LoadPPM (fun i => 200 + i) ⟨5, 5, none, 7⟩
        (some [80, 54, 10, 50, 32, 50, 10, 50, 53, 53, 10, 1, 2, 3, 4]) =
      some (false, ⟨2, 2,
        some [Pixel.mk 1 2 3, Pixel.mk 4 204 205, Pixel.mk 206 207 208,
          Pixel.mk 209 210 211], 7⟩) := by
  decide

theorem sscanf_maxval_bad (line : List Nat)
    (h : scanInt line = IntScan.inputFailure ∨ scanInt line = IntScan.matchFailure ∨
      ∃ v rest, scanInt line = IntScan.ok v rest ∧ v ≠ 255) :
    (∃ n, sscanf line fmtMaxval = some (n, [])) ∨
      ∃ v, sscanf line fmtMaxval = some (1, [v]) ∧ v ≠ 255 := by
  simp only [sscanf, fmtMaxval, sscanfGo]
  rcases h with h | h | ⟨v, rest, h, hv⟩
  · rw [h]; left; exact ⟨_, rfl⟩
  · rw [h]; left; exact ⟨_, rfl⟩
  · rw [h]; right; exact ⟨v, by simp, hv⟩

/-- The maxval stage returns false when the line it reads is missing, holds no
integer for `%d`, or holds an integer other than 255. -/
theorem LoadPPM_maxval_bad (heap : Nat → Nat) (s : ImageScroller) (f : List Nat)
    (h : (ReadLine f).1 = none ∨
      (∃ line, (ReadLine f).1 = some line ∧
        (scanInt (cstr line) = IntScan.inputFailure ∨
          scanInt (cstr line) = IntScan.matchFailure)) ∨
      ∃ line v rest, (ReadLine f).1 = some line ∧
        scanInt (cstr line) = IntScan.ok v rest ∧ v ≠ 255) :
    LoadPPM_maxval heap s f = some (false, s) := by
  unfold LoadPPM_maxval
  rcases hrl : ReadLine f with ⟨l, r⟩
  rw [hrl] at h
  cases l with
  | none => rfl
  | some line =>
    have hb : (∃ n, sscanf (cstr line) fmtMaxval = some (n, [])) ∨
        ∃ v, sscanf (cstr line) fmtMaxval = some (1, [v]) ∧ v ≠ 255 := by
      apply sscanf_maxval_bad
      rcases h with h | ⟨l2, h, h2⟩ | ⟨l2, v, rest, h, h2, h3⟩
      · simp at h
      · simp only [Option.some.injEq] at h
        subst h
        rcases h2 with h2 | h2
        · exact Or.inl h2
        · exact Or.inr (Or.inl h2)
      · simp only [Option.some.injEq] at h
        subst h
        exact Or.inr (Or.inr ⟨v, rest, h2, h3⟩)
    simp only
    rcases hb with ⟨n, hb⟩ | ⟨v, hb, hv⟩
    · rw [hb]
    · rw [hb]
      simp [hv]

/-! ## Comment lines -/

theorem isCommentLine_iff (c : List Nat) (h : isCommentLine c = true) :
    c.head? = some 35 ∧ c.length ≤ 254 ∧ ∀ b ∈ c, b ≠ 10 := by
  simp only [isCommentLine, Bool.and_eq_true, beq_iff_eq, decide_eq_true_eq, List.all_eq_true,
    bne_iff_ne, ne_eq] at h
  exact ⟨h.1.1, h.1.2, h.2⟩

theorem isHeaderLine_iff (l : List Nat) (h : isHeaderLine l = true) :
    l.head? ≠ some 35 ∧ l.length ≤ 254 ∧ ∀ b ∈ l, b ≠ 10 := by
  simp only [isHeaderLine, Bool.and_eq_true, bne_iff_ne, ne_eq, decide_eq_true_eq,
    List.all_eq_true] at h
  exact ⟨h.1.1, h.1.2, h.2⟩

/-- Comment lines in front of the stream are invisible to `ReadLine`. -/
theorem ReadLine_joinLines (cs : List (List Nat)) (rest : List Nat)
    (h : ∀ c ∈ cs, isCommentLine c = true) :
    ReadLine (joinLines cs ++ rest) = ReadLine rest := by
  induction cs with
  | nil => rfl
  | cons c cs ih =>
    obtain ⟨hh, hl, hn⟩ := isCommentLine_iff c (h c (List.mem_cons_self _ _))
    have e : joinLines (c :: cs) ++ rest = c ++ 10 :: (joinLines cs ++ rest) := by
      simp [joinLines]
    rw [e, ReadLine_comment c _ hl hn hh]
    exact ih (fun d hd => h d (List.mem_cons_of_mem _ hd))

theorem ReadLine_commented_line (cs : List (List Nat)) (l rest : List Nat)
    (h : ∀ c ∈ cs, isCommentLine c = true) (hl : isHeaderLine l = true) :
    ReadLine (joinLines cs ++ (l ++ 10 :: rest)) = (some (l ++ [10]), rest) := by
  obtain ⟨hh, hlen, hn⟩ := isHeaderLine_iff l hl
  rw [ReadLine_joinLines cs _ h, ReadLine_line l rest hlen hn hh]

theorem LoadPPM_maxval_congr (heap : Nat → Nat) (s : ImageScroller) (f g : List Nat)
    (h : ReadLine f = ReadLine g) : LoadPPM_maxval heap s f = LoadPPM_maxval heap s g := by
  unfold LoadPPM_maxval
  rw [h]

theorem LoadPPM_dims_congr (heap : Nat → Nat) (s : ImageScroller) (f g : List Nat)
    (line rf rg : List Nat) (hf : ReadLine f = (some line, rf))
    (hg : ReadLine g = (some line, rg))
    (h : ∀ s1, LoadPPM_maxval heap s1 rf = LoadPPM_maxval heap s1 rg) :
    LoadPPM_dims heap s f = LoadPPM_dims heap s g := by
  unfold LoadPPM_dims
  rw [hf, hg]
  simp only [h]

set_option maxRecDepth 20000 in
/-- C7 (as stated, refuted): a comment line of `#` and 254 more characters
before the dimension line makes `LoadPPM` return false on a file it loads
without the comment: the 256-byte buffer takes only 255 characters of the line
and the rest of the comment is read as the dimension line. -/
theorem LoadPPM_long_comment_not_skipped :
    LoadPPM (fun _ => 0) ⟨5, 5, none, 0⟩
        (some ([80, 54, 10] ++ [49, 32, 49, 10, 50, 53, 53, 10, 1, 2, 3])) =
      some (true, ⟨1, 1, some [Pixel.mk 1 2 3], 0⟩) ∧
    LoadPPM (fun _ => 0) ⟨5, 5, none, 0⟩
        (some ([80, 54, 10] ++ (35 :: List.replicate 254 97 ++ [10]) ++
          [49, 32, 49, 10, 50, 53, 53, 10, 1, 2, 3])) =
      some (false, ⟨5, 5, none, 0⟩) := by
  decide

/-- C7 (amended): inserting, before any of the three header lines, any number
of comment lines that start with `#` and have at most 254 characters before
their newline does not change the outcome of `LoadPPM`: same return value and
same object (width, height, pixels). -/
theorem LoadPPM_skips_comments (heap : Nat → Nat) (s : ImageScroller)
    (l1 l2 l3 data : List Nat) (cs1 cs2 cs3 : List (List Nat))
    (h1 : isHeaderLine l1 = true) (h2 : isHeaderLine l2 = true) (h3 : isHeaderLine l3 = true)
    (hc1 : ∀ c ∈ cs1, isCommentLine c = true) (hc2 : ∀ c ∈ cs2, isCommentLine c = true)
    (hc3 : ∀ c ∈ cs3, isCommentLine c = true) :
    LoadPPM heap s (some (joinLines cs1 ++ (l1 ++ 10 :: (joinLines cs2 ++
        (l2 ++ 10 :: (joinLines cs3 ++ (l3 ++ 10 :: data))))))) =
      LoadPPM heap s (some (l1 ++ 10 :: (l2 ++ 10 :: (l3 ++ 10 :: data)))) := by
  have a1 := ReadLine_commented_line cs1 l1
    (joinLines cs2 ++ (l2 ++ 10 :: (joinLines cs3 ++ (l3 ++ 10 :: data)))) hc1 h1
  have b1 := ReadLine_commented_line [] l1 (l2 ++ 10 :: (l3 ++ 10 :: data))
    (by simp) h1
  have a2 := ReadLine_commented_line cs2 l2 (joinLines cs3 ++ (l3 ++ 10 :: data)) hc2 h2
  have b2 := ReadLine_commented_line [] l2 (l3 ++ 10 :: data) (by simp) h2
  have a3 := ReadLine_commented_line cs3 l3 data hc3 h3
  have b3 := ReadLine_commented_line [] l3 data (by simp) h3
  simp only [joinLines, List.nil_append] at b1 b2 b3
  obtain ⟨res, hm⟩ := sscanf_magic_some (cstr (l1 ++ [10]))
  rw [LoadPPM_of_line heap s _ _ _ res a1 hm, LoadPPM_of_line heap s _ _ _ res b1 hm]
  split
  · rfl
  · exact LoadPPM_dims_congr heap _ _ _ _ _ _ a2 b2
      (fun s1 => LoadPPM_maxval_congr heap s1 _ _ (a3.trans b3.symm))

/-- C7 (amended), on a 1 x 1 image with the comments `#a`, `#` and `#bc` before
the three header lines: the file loads as the one without comments. -/
theorem LoadPPM_skips_comments_witness :
    LoadPPM (fun _ => 0) ⟨5, 5, none, 0⟩
        (some [35, 97, 10, 80, 54, 10, 35, 10, 49, 32, 49, 10, 35, 98, 99, 10, 50, 53, 53, 10,
          1, 2, 3]) =
      LoadPPM (fun _ => 0) ⟨5, 5, none, 0⟩
        (some [80, 54, 10, 49, 32, 49, 10, 50, 53, 53, 10, 1, 2, 3]) ∧
    LoadPPM (fun _ => 0) ⟨5, 5, none, 0⟩
        (some [80, 54, 10, 49, 32, 49, 10, 50, 53, 53, 10, 1, 2, 3]) =
      some (true, ⟨1, 1, some [Pixel.mk 1 2 3], 0⟩) :=
  ⟨LoadPPM_skips_comments (fun _ => 0) ⟨5, 5, none, 0⟩ [80, 54] [49, 32, 49] [50, 53, 53]
      [1, 2, 3] [[35, 97]] [[35]] [[35, 98, 99]] (by decide) (by decide) (by decide)
      (by decide) (by decide) (by decide),
    by decide⟩

/-! ## ColorPulseGenerator -/

theorem pulseColor_eq (c : Nat) : pulseColor c = ((c / 512 % 6 : Nat) : Int) := by
  unfold pulseColor
  rw [Nat.shiftRight_eq_div_pow]

theorem and_0xFF (c : Nat) : c &&& 0xFF = c % 256 :=
  Nat.and_pow_two_sub_one_eq_mod c 8

theorem and_0x100 (c : Nat) : c &&& 0x100 = if c.testBit 8 then 256 else 0 := by
  have h := Nat.and_two_pow c 8
  rw [show (2 : Nat) ^ 8 = 0x100 from rfl] at h
  rw [h]
  cases c.testBit 8 <;> rfl

theorem pulseValue_eq (c : Nat) :
    pulseValue c =
      if c.testBit 8 = true then 255 - ((c % 256 : Nat) : Int) else ((c % 256 : Nat) : Int) := by
  unfold pulseValue
  rw [and_0xFF, and_0x100]
  cases c.testBit 8 <;> simp

theorem pulseValue_range (c : Nat) : 0 ≤ pulseValue c ∧ pulseValue c ≤ 255 := by
  rw [pulseValue_eq]
  split <;> omega

theorem pulseRGB_range (c : Nat) :
    (0 ≤ (pulseRGB c).1 ∧ (pulseRGB c).1 ≤ 255) ∧
    (0 ≤ (pulseRGB c).2.1 ∧ (pulseRGB c).2.1 ≤ 255) ∧
    (0 ≤ (pulseRGB c).2.2 ∧ (pulseRGB c).2.2 ≤ 255) := by
  have hv := pulseValue_range c
  unfold pulseRGB
  simp only
  split_ifs <;> simp [hv]

/-- C8: for every counter value the phase `(count >> 9) % 6` is one of 0..5,
the three channels computed from it lie in [0, 255], and so does every channel
of every `SetPixel` call of a frame. -/
theorem pulse_phase_and_channels_in_range (count : Nat) (columns : Int) :
    (0 ≤ pulseColor count ∧ pulseColor count ≤ 5) ∧
    ((0 ≤ (pulseRGB count).1 ∧ (pulseRGB count).1 ≤ 255) ∧
      (0 ≤ (pulseRGB count).2.1 ∧ (pulseRGB count).2.1 ≤ 255) ∧
      (0 ≤ (pulseRGB count).2.2 ∧ (pulseRGB count).2.2 ≤ 255)) ∧
    ∀ call ∈ (pulseFrame columns count).2,
      (0 ≤ call.r ∧ call.r ≤ 255) ∧ (0 ≤ call.g ∧ call.g ≤ 255) ∧
        (0 ≤ call.b ∧ call.b ≤ 255) := by
  refine ⟨?_, pulseRGB_range count, ?_⟩
  · rw [pulseColor_eq]
    omega
  · intro call hcall
    simp only [pulseFrame, List.mem_flatMap, List.mem_map] at hcall
    obtain ⟨x, _, y, _, rfl⟩ := hcall
    exact pulseRGB_range (pulseNext count)

/-- C8, on the frame drawn when the counter goes from 699 to 700 on a canvas
of two columns: the call for pixel (1, 5) carries (188, 188, 0). -/
theorem pulse_phase_and_channels_in_range_witness :
    SetPixelCall.mk 1 5 188 188 0 ∈ (pulseFrame 2 699).2 ∧
    ((0 : Int) ≤ 188 ∧ (188 : Int) ≤ 255) ∧ ((0 : Int) ≤ 188 ∧ (188 : Int) ≤ 255) ∧
      ((0 : Int) ≤ 0 ∧ (0 : Int) ≤ 255) :=
  ⟨by decide,
    (pulse_phase_and_channels_in_range 699 2).2.2 (SetPixelCall.mk 1 5 188 188 0) (by decide)⟩

theorem forEach_append {σ : Type} (l1 l2 : List Int) (body : σ → Int → Option σ) (s : σ) :
    forEach (l1 ++ l2) body s =
      match forEach l1 body s with
      | none => none
      | some s1 => forEach l2 body s1 := by
  induction l1 generalizing s with
  | nil => rfl
  | cons i l1 ih =>
    simp only [List.cons_append, forEach]
    cases body s i with
    | none => rfl
    | some s1 => exact ih s1

theorem intRange_succ (lo : Int) (n : Nat) :
    intRange lo (lo + ((n + 1 : Nat) : Int)) = intRange lo (lo + (n : Int)) ++ [lo + (n : Int)] := by
  unfold intRange
  have h1 : (lo + ((n + 1 : Nat) : Int) - lo).toNat = n + 1 := by omega
  have h2 : (lo + (n : Int) - lo).toNat = n := by omega
  rw [h1, h2, List.range_succ, List.map_append]
  rfl

/-- Loop rule: an invariant indexed by the loop variable that every iteration
carries from `i` to `i + 1` holds at the upper bound after the loop, and the
loop does not get stuck. -/
theorem forEach_intRange_inv {σ : Type} (P : Int → σ → Prop) (lo : Int) (n : Nat)
    (body : σ → Int → Option σ)
    (step : ∀ i s, lo ≤ i → i < lo + (n : Int) → P i s → ∃ s1, body s i = some s1 ∧ P (i + 1) s1)
    (s : σ) (hs : P lo s) :
    ∃ s1, forEach (intRange lo (lo + (n : Int))) body s = some s1 ∧ P (lo + (n : Int)) s1 := by
  induction n with
  | zero =>
    refine ⟨s, ?_, by simpa using hs⟩
    simp [intRange, forEach]
  | succ n ih =>
    obtain ⟨s1, h1, hp1⟩ := ih (fun i s hlo hhi hp => step i s hlo (by omega) hp)
    obtain ⟨s2, h2, hp2⟩ := step (lo + (n : Int)) s1 (by omega) (by omega) hp1
    refine ⟨s2, ?_, ?_⟩
    · rw [intRange_succ, forEach_append, h1]
      simp [forEach, h2]
    · have : lo + ((n + 1 : Nat) : Int) = lo + (n : Int) + 1 := by omega
      rw [this]; exact hp2

/-- Loop rule for `for (i = lo; i < hi; ++i)` with `lo ≤ hi`. -/
theorem forEach_for_inv {σ : Type} (P : Int → σ → Prop) (lo hi : Int) (hle : lo ≤ hi)
    (body : σ → Int → Option σ)
    (step : ∀ i s, lo ≤ i → i < hi → P i s → ∃ s1, body s i = some s1 ∧ P (i + 1) s1)
    (s : σ) (hs : P lo s) :
    ∃ s1, forEach (intRange lo hi) body s = some s1 ∧ P hi s1 := by
  have h := forEach_intRange_inv P lo (hi - lo).toNat body
    (fun i s hlo hhi hp => step i s hlo (by omega) hp) s hs
  have e : lo + (((hi - lo).toNat : Nat) : Int) = hi := by omega
  rw [e] at h
  exact h

/-! ## Flame -/

theorem bufRead_some (s : Flame) (idx : Int) (hlen : s.buf.length = 1024)
    (h0 : 0 ≤ idx) (h1 : idx < 1024) : ∃ p, bufRead s idx = some p := by
  have hlt : idx.toNat < s.buf.length := by omega
  refine ⟨s.buf[idx.toNat], ?_⟩
  simp [bufRead, h0, h1, List.getElem?_eq_getElem hlt]

theorem bufWrite_some (s : Flame) (idx v : Int) (h0 : 0 ≤ idx) (h1 : idx < 1024) :
    bufWrite s idx v = some { s with buf := s.buf.set idx.toNat v } := by
  simp [bufWrite, h0, h1]

/-- One `SpreadFire` from the cell `(x, y)` of a 32-column grid, `1 ≤ y ≤ 31`:
it is defined, keeps the array size and changes at most the cell `(x, y - 1)`. -/
theorem SpreadFire_frame (rand : Nat → Nat) (s : Flame) (x y : Int)
    (hlen : s.buf.length = 1024) (hx0 : 0 ≤ x) (hx1 : x < 32) (hy0 : 1 ≤ y) (hy1 : y < 32) :
    ∃ s1, SpreadFire rand 32 s (y * 32 + x) = some s1 ∧ s1.buf.length = 1024 ∧
      ∀ j : Nat, j ≠ ((y - 1) * 32 + x).toNat → s1.buf[j]? = s.buf[j]? := by
  obtain ⟨p, hp⟩ := bufRead_some s (y * 32 + x) hlen (by omega) (by omega)
  have hto : y * 32 + x - 32 = (y - 1) * 32 + x := by ring
  unfold SpreadFire
  rw [hp]
  simp only
  split
  · rw [bufWrite_some _ _ _ (by omega) (by omega)]
    refine ⟨_, rfl, by simpa using hlen, ?_⟩
    intro j hj
    rw [hto]
    exact List.getElem?_set_ne (Ne.symm hj)
  · rw [bufWrite_some _ _ _ (by omega) (by omega)]
    refine ⟨_, rfl, by simpa using hlen, ?_⟩
    intro j hj
    rw [hto]
    exact List.getElem?_set_ne (Ne.symm hj)

/-- One `DoFire` on a 32 x 32 canvas is defined, keeps the array size and
leaves every cell of the bottom row (indices 992 to 1023) as it was. -/
theorem DoFire_bottom_row (rand : Nat → Nat) (s : Flame) (hlen : s.buf.length = 1024) :
    ∃ s1, DoFire rand 32 32 s = some s1 ∧ s1.buf.length = 1024 ∧
      ∀ j : Nat, 992 ≤ j → s1.buf[j]? = s.buf[j]? := by
  unfold DoFire
  exact forEach_for_inv
    (fun _ t => t.buf.length = 1024 ∧ ∀ j : Nat, 992 ≤ j → t.buf[j]? = s.buf[j]?)
    0 32 (by decide) _
    (fun x t hx0 hx1 ht =>
      forEach_for_inv
        (fun _ u => u.buf.length = 1024 ∧ ∀ j : Nat, 992 ≤ j → u.buf[j]? = s.buf[j]?)
        1 32 (by decide) _
        (fun y u hy0 hy1 hu => by
          obtain ⟨u1, h1, hl1, hf1⟩ := SpreadFire_frame rand u x y hu.1 hx0 hx1 hy0 hy1
          refine ⟨u1, h1, hl1, ?_⟩
          intro j hj
          rw [hf1 j (by omega)]
          exact hu.2 j hj)
        t ht)
    s ⟨hlen, fun _ _ => rfl⟩

/-- The constructor is defined and leaves 31 in every cell of row 31 and 0 in
every other cell, whatever the array held before. -/
theorem Flame_new_grid (garbage : Nat → Int) (k : Nat) :
    ∃ s, Flame.new garbage k = some s ∧ s.buf.length = 1024 ∧
      ∀ x y : Nat, x < 32 → y < 32 →
        s.buf[y * 32 + x]? = some (if y = 31 then 31 else 0) := by
  have hmain := forEach_for_inv
    (fun (X : Int) (t : Flame) => t.buf.length = 1024 ∧
      ∀ x y : Nat, x < 32 → y < 32 → (x : Int) < X →
        t.buf[y * 32 + x]? = some (if y = 31 then 31 else 0))
    0 32 (by decide)
    (fun s x =>
      forEach (intRange 0 32) (fun s y =>
        if y = 31 then bufWrite s (y * 32 + x) 31 else bufWrite s (y * 32 + x) 0) s)
    (fun X t hX0 hX1 ht => by
      have hin := forEach_for_inv
        (fun (Y : Int) (u : Flame) => u.buf.length = 1024 ∧
          ∀ x y : Nat, x < 32 → y < 32 → ((x : Int) < X ∨ ((x : Int) = X ∧ (y : Int) < Y)) →
            u.buf[y * 32 + x]? = some (if y = 31 then 31 else 0))
        0 32 (by decide)
        (fun s y => if y = 31 then bufWrite s (y * 32 + X) 31 else bufWrite s (y * 32 + X) 0)
        (fun Y u hY0 hY1 hu => by
          have hw : ∀ v : Int, bufWrite u (Y * 32 + X) v =
              some { u with buf := u.buf.set (Y * 32 + X).toNat v } :=
            fun v => bufWrite_some u _ v (by omega) (by omega)
          refine ⟨{ u with buf := u.buf.set (Y * 32 + X).toNat (if Y = 31 then 31 else 0) },
            ?_, by simpa using hu.1, ?_⟩
          · simp only [hw]
            by_cases h31 : Y = 31
            · rw [if_pos h31, if_pos h31]
            · rw [if_neg h31, if_neg h31]
          · intro x y hx hy hxy
            by_cases hsame : (x : Int) = X ∧ (y : Int) = Y
            · have hidx : (Y * 32 + X).toNat = y * 32 + x := by omega
              have hlt : y * 32 + x < u.buf.length := by rw [hu.1]; omega
              simp only [hidx]
              rw [List.getElem?_set_self hlt]
              have : (Y = 31) ↔ (y = 31) := by omega
              simp [this]
            · have hidx : (Y * 32 + X).toNat ≠ y * 32 + x := by omega
              simp only
              rw [List.getElem?_set_ne hidx]
              exact hu.2 x y hx hy (by omega))
        t ⟨ht.1, fun x y hx hy hxy => ht.2 x y hx hy (by omega)⟩
      obtain ⟨t1, h1, hl1, hc1⟩ := hin
      exact ⟨t1, h1, hl1, fun x y hx hy hxX => hc1 x y hx hy (by omega)⟩)
    ⟨(List.range 1024).map garbage, k⟩
    ⟨by simp, fun x y hx hy hxX => by omega⟩
  obtain ⟨s, hs, hl, hc⟩ := hmain
  exact ⟨s, hs, hl, fun x y hx hy => hc x y hx hy (by omega)⟩

/-- Any number of `DoFire` ticks on a 32 x 32 canvas is defined, keeps the
array size and the bottom row. -/
theorem fireTicks_bottom_row (rand : Nat → Nat) (n : Nat) (s : Flame)
    (hlen : s.buf.length = 1024) :
    ∃ s1, fireTicks rand 32 32 n s = some s1 ∧ s1.buf.length = 1024 ∧
      ∀ j : Nat, 992 ≤ j → s1.buf[j]? = s.buf[j]? := by
  induction n generalizing s with
  | zero => exact ⟨s, rfl, hlen, fun _ _ => rfl⟩
  | succ n ih =>
    obtain ⟨s1, h1, hl1, hf1⟩ := DoFire_bottom_row rand s hlen
    obtain ⟨s2, h2, hl2, hf2⟩ := ih s1 hl1
    refine ⟨s2, ?_, hl2, fun j hj => (hf2 j hj).trans (hf1 j hj)⟩
    simp [fireTicks, h1, h2]

/-- C10: on a 32 x 32 canvas, the grid built by the constructor and then run
through any number `n` of `DoFire` ticks, with any values returned by `rand()`,
exists and holds 31 in every cell of the bottom row; and one `DoFire` on any
grid of 1024 cells leaves every bottom-row cell with the value it had, so it
never writes one. -/
theorem fire_bottom_row_pinned (garbage : Nat → Int) (calls : Nat) (rand : Nat → Nat)
    (n : Nat) :
    (∃ s0 s, Flame.new garbage calls = some s0 ∧ fireTicks rand 32 32 n s0 = some s ∧
      ∀ x : Nat, x < 32 → s.buf[31 * 32 + x]? = some 31) ∧
    (∀ (cells : Nat → Int) (c : Nat), ∃ s1,
      DoFire rand 32 32 ⟨(List.range 1024).map cells, c⟩ = some s1 ∧
      ∀ x : Nat, x < 32 → s1.buf[31 * 32 + x]? = some (cells (31 * 32 + x))) := by
  constructor
  · obtain ⟨s0, h0, hl0, hc0⟩ := Flame_new_grid garbage calls
    obtain ⟨s, h1, _, hf1⟩ := fireTicks_bottom_row rand n s0 hl0
    refine ⟨s0, s, h0, h1, ?_⟩
    intro x hx
    rw [hf1 _ (by omega), hc0 x 31 hx (by decide)]
    rfl
  · intro cells c
    obtain ⟨s1, h1, _, hf1⟩ := DoFire_bottom_row rand ⟨(List.range 1024).map cells, c⟩
      (by simp)
    refine ⟨s1, h1, ?_⟩
    intro x hx
    rw [hf1 _ (by omega)]
    have hlt : 31 * 32 + x < 1024 := by omega
    simp [List.getElem?_range hlt]

/-- C10, three ticks after construction on an array full of sevens, with
`rand()` returning 3, 10, 17, ...: cell (8, 31) holds 31. -/
theorem fire_bottom_row_pinned_witness :
    ∃ s0 s, Flame.new (fun _ => 7) 0 = some s0 ∧
      fireTicks (fun k => 7 * k + 3) 32 32 3 s0 = some s ∧ s.buf[31 * 32 + 8]? = some 31 := by
  obtain ⟨s0, s, h0, h1, hrow⟩ :=
    (fire_bottom_row_pinned (fun _ => 7) 0 (fun k => 7 * k + 3) 3).1
  exact ⟨s0, s, h0, h1, hrow 8 (by decide)⟩

/-! ## Flame: what one tick does to each cell -/

/-- One `SpreadFire` from the cell `(x, y)` of a 32-column grid holding `p`:
the cell `(x, y - 1)` becomes 0 when `p < 1` and `p` minus some draw
`rand() % 5` otherwise; nothing else changes. -/
theorem SpreadFire_cell (rand : Nat → Nat) (s : Flame) (x y : Int) (p : Int)
    (hx0 : 0 ≤ x) (hx1 : x < 32) (hy0 : 1 ≤ y) (hy1 : y < 32)
    (hp : s.buf[(y * 32 + x).toNat]? = some p) :
    ∃ s1 k, SpreadFire rand 32 s (y * 32 + x) = some s1 ∧
      s1.buf = s.buf.set ((y - 1) * 32 + x).toNat
        (if p < 1 then 0 else p - ((rand k : Int) % 5)) := by
  have hr : bufRead s (y * 32 + x) = some p := by
    have h0 : 0 ≤ y * 32 + x := by omega
    have h1 : y * 32 + x < 1024 := by omega
    simp [bufRead, h0, h1, hp]
  have hto : y * 32 + x - 32 = (y - 1) * 32 + x := by ring
  unfold SpreadFire
  rw [hr]
  simp only
  by_cases hlt : p < 1
  · rw [if_pos hlt, bufWrite_some _ _ _ (by omega) (by omega), hto]
    exact ⟨_, 0, rfl, by rw [if_pos hlt]⟩
  · rw [if_neg hlt, bufWrite_some _ _ _ (by omega) (by omega), hto]
    exact ⟨_, s.rand_calls, rfl, by rw [if_neg hlt]⟩

/-- One `DoFire` on a 32 x 32 canvas, cell by cell: it is defined and keeps the
array size; every cell `(x, y)` above the bottom row receives 0 when the cell
below it held `p < 1` before the tick and `p - rand() % 5` for one of the draws
otherwise; the bottom row keeps its values. -/
theorem DoFire_cells (rand : Nat → Nat) (s : Flame) (hlen : s.buf.length = 1024) :
    ∃ s1, DoFire rand 32 32 s = some s1 ∧ s1.buf.length = 1024 ∧
      (∀ x y : Nat, x < 32 → y < 31 → ∃ k p, s.buf[(y + 1) * 32 + x]? = some p ∧
        s1.buf[y * 32 + x]? = some (if p < 1 then 0 else p - ((rand k : Int) % 5))) ∧
      (∀ x : Nat, x < 32 → s1.buf[31 * 32 + x]? = s.buf[31 * 32 + x]?) := by
  have hmain := forEach_for_inv
    (fun (X : Int) (t : Flame) => t.buf.length = 1024 ∧
      ∀ x y : Nat, x < 32 → y < 32 →
        ((y < 31 ∧ (x : Int) < X) → ∃ k p, s.buf[(y + 1) * 32 + x]? = some p ∧
          t.buf[y * 32 + x]? = some (if p < 1 then 0 else p - ((rand k : Int) % 5))) ∧
        (¬ (y < 31 ∧ (x : Int) < X) → t.buf[y * 32 + x]? = s.buf[y * 32 + x]?))
    0 32 (by decide)
    (fun s x => forEach (intRange 1 32) (fun s y => SpreadFire rand 32 s (y * 32 + x)) s)
    (fun X t hX0 hX1 ht => by
      have hin := forEach_for_inv
        (fun (Y : Int) (u : Flame) => u.buf.length = 1024 ∧
          ∀ x y : Nat, x < 32 → y < 32 →
            ((y < 31 ∧ ((x : Int) < X ∨ ((x : Int) = X ∧ (y : Int) + 1 < Y))) →
              ∃ k p, s.buf[(y + 1) * 32 + x]? = some p ∧
              u.buf[y * 32 + x]? = some (if p < 1 then 0 else p - ((rand k : Int) % 5))) ∧
            (¬ (y < 31 ∧ ((x : Int) < X ∨ ((x : Int) = X ∧ (y : Int) + 1 < Y))) →
              u.buf[y * 32 + x]? = s.buf[y * 32 + x]?))
        1 32 (by decide)
        (fun s y => SpreadFire rand 32 s (y * 32 + X))
        (fun Y u hY0 hY1 hu => by
          obtain ⟨hul, hucells⟩ := hu
          -- the source cell (X, Y) is still the one of `s`
          have hsrc0 := (hucells X.toNat Y.toNat (by omega) (by omega)).2 (by omega)
          have hidx : (Y * 32 + X).toNat = Y.toNat * 32 + X.toNat := by omega
          have hslt : Y.toNat * 32 + X.toNat < s.buf.length := by rw [hlen]; omega
          have hsp : s.buf[Y.toNat * 32 + X.toNat]? = some (s.buf[Y.toNat * 32 + X.toNat]) :=
            List.getElem?_eq_getElem hslt
          have hsrc : u.buf[(Y * 32 + X).toNat]? = some (s.buf[Y.toNat * 32 + X.toNat]) := by
            rw [hidx, hsrc0, hsp]
          obtain ⟨u1, k, h1, hb1⟩ := SpreadFire_cell rand u X Y _ hX0 hX1 hY0 hY1 hsrc
          refine ⟨u1, h1, by rw [hb1]; simpa using hul, ?_⟩
          intro x y hx hy
          by_cases hsame : (x : Int) = X ∧ (y : Int) + 1 = Y
          · have hi : ((Y - 1) * 32 + X).toNat = y * 32 + x := by omega
            have hlt : y * 32 + x < u.buf.length := by rw [hul]; omega
            have hsi : (y + 1) * 32 + x = Y.toNat * 32 + X.toNat := by omega
            constructor
            · intro _
              refine ⟨k, s.buf[Y.toNat * 32 + X.toNat], ?_, ?_⟩
              · rw [hsi, hsp]
              · rw [hb1, hi, List.getElem?_set_self hlt]
            · intro hn
              exact absurd ⟨by omega, Or.inr ⟨hsame.1, by omega⟩⟩ hn
          · have hi : ((Y - 1) * 32 + X).toNat ≠ y * 32 + x := by omega
            have hkeep : u1.buf[y * 32 + x]? = u.buf[y * 32 + x]? := by
              rw [hb1, List.getElem?_set_ne hi]
            constructor
            · intro hpr
              rw [hkeep]
              exact (hucells x y hx hy).1 ⟨hpr.1, by omega⟩
            · intro hn
              rw [hkeep]
              exact (hucells x y hx hy).2 (by omega))
        t ⟨ht.1, fun x y hx hy =>
          ⟨fun h => (ht.2 x y hx hy).1 ⟨h.1, by omega⟩,
           fun h => (ht.2 x y hx hy).2 (by omega)⟩⟩
      obtain ⟨t1, h1, hl1, hc1⟩ := hin
      exact ⟨t1, h1, hl1, fun x y hx hy =>
        ⟨fun h => (hc1 x y hx hy).1 ⟨h.1, by omega⟩,
         fun h => (hc1 x y hx hy).2 (by omega)⟩⟩)
    s ⟨hlen, fun x y hx hy => ⟨fun h => by omega, fun _ => rfl⟩⟩
  obtain ⟨s1, h1, hl1, hc1⟩ := hmain
  refine ⟨s1, h1, hl1, ?_, ?_⟩
  · intro x y hx hy
    exact (hc1 x y hx (by omega)).1 ⟨hy, by omega⟩
  · intro x hx
    exact (hc1 x 31 hx (by decide)).2 (by omega)

theorem fireTicks_succ_last (rand : Nat → Nat) (n : Nat) (s : Flame) :
    fireTicks rand 32 32 (n + 1) s =
      match fireTicks rand 32 32 n s with
      | none => none
      | some t => DoFire rand 32 32 t := by
  induction n generalizing s with
  | zero =>
    simp only [fireTicks]
    cases DoFire rand 32 32 s <;> rfl
  | succ n ih =>
    rw [fireTicks]
    cases h : DoFire rand 32 32 s with
    | none => simp [fireTicks, h]
    | some s1 =>
      simp only
      rw [ih s1]
      simp [fireTicks, h]

/-- One tick in which every `rand() % 5` is 4: the cell above a cell holding
`p` receives 0 when `p < 1` and `p - 4` otherwise. -/
theorem DoFire_draw4_cell (s : Flame) (hlen : s.buf.length = 1024) (x y : Nat) (p : Int)
    (hx : x < 32) (hy : y < 31) (hp : s.buf[(y + 1) * 32 + x]? = some p) :
    ∃ s1, DoFire (fun _ => 4) 32 32 s = some s1 ∧ s1.buf.length = 1024 ∧
      s1.buf[y * 32 + x]? = some (if p < 1 then 0 else p - 4) ∧
      (∀ x : Nat, x < 32 → s1.buf[31 * 32 + x]? = s.buf[31 * 32 + x]?) := by
  obtain ⟨s1, h1, hl1, hc1, hb1⟩ := DoFire_cells (fun _ => 4) s hlen
  obtain ⟨k, p1, hp1, hv1⟩ := hc1 x y hx hy
  rw [hp] at hp1
  simp only [Option.some.injEq] at hp1
  subst hp1
  refine ⟨s1, h1, hl1, ?_, hb1⟩
  rw [hv1]
  rfl

/-- With every draw equal to 4, `n ≤ 31` ticks after a grid whose bottom cell
in column `x` holds 31, the cell `n` rows above the bottom holds 31 cooled `n`
times. -/
theorem fireTicks_draw4_column (s : Flame) (hlen : s.buf.length = 1024) (x : Nat)
    (hx : x < 32) (hbot : s.buf[31 * 32 + x]? = some 31) (n : Nat) (hn : n ≤ 31) :
    ∃ t, fireTicks (fun _ => 4) 32 32 n s = some t ∧ t.buf.length = 1024 ∧
      t.buf[31 * 32 + x]? = some 31 ∧
      t.buf[(31 - n) * 32 + x]? =
        some ((fun p : Int => if p < 1 then 0 else p - 4)^[n] 31) := by
  induction n with
  | zero => exact ⟨s, rfl, hlen, hbot, hbot⟩
  | succ n ih =>
    obtain ⟨t, ht, hl, hb, hc⟩ := ih (by omega)
    have he : (31 - (n + 1) + 1) * 32 + x = (31 - n) * 32 + x := by omega
    obtain ⟨t1, h1, hl1, hc1, hb1⟩ := DoFire_draw4_cell t hl x (31 - (n + 1)) _ hx (by omega)
      (by rw [he]; exact hc)
    refine ⟨t1, ?_, hl1, ?_, ?_⟩
    · rw [fireTicks_succ_last, ht]
      exact h1
    · rw [hb1 x hx, hb]
    · rw [hc1, Function.iterate_succ_apply']

/-- The `SetPixel` call of `Flame::Run` for a pixel whose cell holds the palette
index `v`. -/
theorem flamePixel_of_cell (s : Flame) (x y v colour : Nat) (hx : x < 32) (hy : y < 32)
    (hv : s.buf[y * 32 + x]? = some (v : Int)) (hc : colours[v]? = some colour) :
    flamePixel 32 s x y =
      some ⟨x, y, (((colour >>> 16) &&& 0xFF : Nat) : Int), ((colour &&& 0xFF : Nat) : Int),
        (((colour >>> 8) &&& 0xFF : Nat) : Int)⟩ := by
  have hidx : ((y : Int) * 32 + (x : Int)).toNat = y * 32 + x := by omega
  have h0 : 0 ≤ (y : Int) * 32 + (x : Int) := by omega
  have h1 : (y : Int) * 32 + (x : Int) < 1024 := by omega
  have hr : bufRead s ((y : Int) * 32 + (x : Int)) = some (v : Int) := by
    simp only [bufRead, h0, h1, and_self, if_true, hidx, hv]
  have hvlt : v < 32 := by
    have := (List.getElem?_eq_some_iff.mp hc).1
    simpa [colours] using this
  have hrange : 0 ≤ (v : Int) ∧ (v : Int) < 32 := by omega
  simp only [flamePixel, hr, hrange, and_self, if_true, Int.toNat_ofNat, hc]

/-- C11 (the code at the failing input): from the constructor's grid, eight
ticks in which every `rand() % 5` is 4 leave -1 in the cell of column 0, row
23 (31, 27, 23, 19, 15, 11, 7, 3 and then 3 - 4), and the palette lookup of
`Run` for that pixel indexes `colours` outside its 32 entries. -/
theorem fire_cell_goes_negative :
    ∃ s0 s, Flame.new (fun _ => 0) 0 = some s0 ∧
      fireTicks (fun _ => 4) 32 32 8 s0 = some s ∧
      s.buf[23 * 32 + 0]? = some (-1) ∧ flamePixel 32 s 0 23 = none := by
  obtain ⟨s0, h0, hl0, hc0⟩ := Flame_new_grid (fun _ => 0) 0
  have hbot : s0.buf[31 * 32 + 0]? = some 31 := by
    rw [hc0 0 31 (by decide) (by decide)]; rfl
  obtain ⟨s, h8, _, _, hc⟩ := fireTicks_draw4_column s0 hl0 0 (by decide) hbot 8 (by decide)
  have hcell : s.buf[23 * 32 + 0]? = some (-1) := by
    rw [show 23 * 32 + 0 = (31 - 8) * 32 + 0 from rfl, hc]
    decide
  refine ⟨s0, s, h0, h8, hcell, ?_⟩
  have hcell2 : s.buf[736]? = some (-1) := hcell
  simp [flamePixel, bufRead, hcell2]

/-- C12 (the code at the failing input): after the eight ticks with every draw
4 the cell (0, 23) holds -1; the ninth tick writes 0 into the cell (0, 22)
above it, more than its source cell held before the tick. -/
theorem fire_cell_above_negative_heats_up :
    ∃ s0 s8 s9, Flame.new (fun _ => 0) 0 = some s0 ∧
      fireTicks (fun _ => 4) 32 32 8 s0 = some s8 ∧
      DoFire (fun _ => 4) 32 32 s8 = some s9 ∧
      s8.buf[23 * 32 + 0]? = some (-1) ∧ s9.buf[22 * 32 + 0]? = some 0 := by
  obtain ⟨s0, h0, hl0, hc0⟩ := Flame_new_grid (fun _ => 0) 0
  have hbot : s0.buf[31 * 32 + 0]? = some 31 := by
    rw [hc0 0 31 (by decide) (by decide)]; rfl
  obtain ⟨s8, h8, hl8, _, hc⟩ := fireTicks_draw4_column s0 hl0 0 (by decide) hbot 8 (by decide)
  have hcell : s8.buf[(22 + 1) * 32 + 0]? = some (-1) := by
    rw [show (22 + 1) * 32 + 0 = (31 - 8) * 32 + 0 from rfl, hc]
    decide
  obtain ⟨s9, h9, _, hc9, _⟩ := DoFire_draw4_cell s8 hl8 0 22 (-1) (by decide) (by decide) hcell
  exact ⟨s0, s8, s9, h0, h8, h9, hcell, hc9⟩

/-- C19 (the code at the failing input): after one tick with draw 4 the cell
(0, 30) holds 27, whose palette entry is `0xB7B737`; `Run` calls `SetPixel`
with red `0xB7`, green `0x37` (bits 0-7) and blue `0xB7` (bits 8-15): green
and blue are exchanged with respect to `0xRRGGBB`. -/
theorem flame_frame_swaps_green_and_blue :
    ∃ s0 s1, Flame.new (fun _ => 0) 0 = some s0 ∧
      DoFire (fun _ => 4) 32 32 s0 = some s1 ∧
      s1.buf[30 * 32 + 0]? = some 27 ∧ colours[27]? = some 0xB7B737 ∧
      flamePixel 32 s1 0 30 = some ⟨0, 30, 0xB7, 0x37, 0xB7⟩ := by
  obtain ⟨s0, h0, hl0, hc0⟩ := Flame_new_grid (fun _ => 0) 0
  have hbot : s0.buf[(30 + 1) * 32 + 0]? = some 31 := by
    rw [hc0 0 31 (by decide) (by decide)]; rfl
  obtain ⟨s1, h1, _, hc1, _⟩ := DoFire_draw4_cell s0 hl0 0 30 31 (by decide) (by decide) hbot
  have hcell : s1.buf[960]? = some 27 := hc1
  exact ⟨s0, s1, h0, h1, hcell, by decide,
    flamePixel_of_cell s1 0 30 27 0xB7B737 (by decide) (by decide) hcell (by decide)⟩

/-! ## ImageScroller::Run -/

theorem mem_intRange (lo hi i : Int) : i ∈ intRange lo hi ↔ lo ≤ i ∧ i < hi := by
  simp only [intRange, List.mem_map, List.mem_range]
  constructor
  · rintro ⟨k, hk, rfl⟩
    omega
  · intro h
    exact ⟨(i - lo).toNat, by omega, by omega⟩

theorem intRange_length (lo hi : Int) : (intRange lo hi).length = (hi - lo).toNat := by
  simp [intRange]

theorem collect_map_some {α : Type} (l : List α) : collect (l.map some) = some l := by
  induction l with
  | nil => rfl
  | cons a l ih => simp [collect, ih]

/-- The column sampled for canvas column `x` when the image is `w` wide,
`1 ≤ w`: the 32-bit sum of position and `x`, modulo `w`. -/
theorem scrollColumn_loaded (w h : Int) (img : Option (List Pixel)) (k : Nat) (x : Int)
    (hw1 : 1 ≤ w) (hw2 : w ≤ 2147483647) (hx : 0 ≤ x) (hx2 : x < 4294967296) :
    scrollColumn ⟨w, h, img, k⟩ x = some ((((k : Int) + x) % 4294967296) % w) := by
  have hwm : w % 4294967296 = w := Int.emod_eq_of_lt (by omega) (by omega)
  have hxm : x % 4294967296 = x := Int.emod_eq_of_lt hx hx2
  have hne : ¬ (w = 0) := by omega
  have hlt : ((k : Int) + x) % 4294967296 % w < w := Int.emod_lt_of_pos _ (by omega)
  have hle : ((k : Int) + x) % 4294967296 % w ≤ 2147483647 := by omega
  simp only [scrollColumn, hwm, hxm, hne, if_false, hle, if_true]

theorem scrollColumn_no_wrap (w h : Int) (img : Option (List Pixel)) (k : Nat) (x : Int)
    (hw1 : 1 ≤ w) (hw2 : w ≤ 2147483647) (hx : 0 ≤ x) (hkx : (k : Int) + x < 4294967296) :
    scrollColumn ⟨w, h, img, k⟩ x = some (((k : Int) + x) % w) := by
  rw [scrollColumn_loaded w h img k x hw1 hw2 hx (by omega)]
  rw [Int.emod_eq_of_lt (by omega) hkx]

/-- The frame of a loaded image of width `w ≥ 1` at position `k`, when
`k + columns` does not exceed `2^32`: for each `x` and `y`, in loop order,
the call at `(columns - x, 31 - y)` with the pixel `getPixel((k + x) % w, y)`. -/
theorem scrollerFrame_loaded (w h : Int) (img : Option (List Pixel)) (k : Nat) (columns : Int)
    (hw1 : 1 ≤ w) (hw2 : w ≤ 2147483647) (hk : (k : Int) + columns ≤ 4294967296) :
    scrollerFrame columns ⟨w, h, img, k⟩ =
      some ((intRange 0 columns).flatMap (fun x =>
        (intRange 0 32).map (fun y =>
          ScrollerCall.mk (columns - x) (31 - y)
            (getPixel ⟨w, h, img, k⟩ (((k : Int) + x) % w) y)))) := by
  unfold scrollerFrame
  rw [← collect_map_some]
  congr 1
  rw [List.map_flatMap]
  apply List.flatMap_congr
  intro x hx
  rw [mem_intRange] at hx
  rw [List.map_map]
  apply List.map_congr_left
  intro y _
  simp only [Function.comp, scrollerCall,
    scrollColumn_no_wrap w h img k x hw1 hw2 hx.1 (by omega)]

theorem scrollerFrame_defined (w h : Int) (img : Option (List Pixel)) (k : Nat) (columns : Int)
    (hw1 : 1 ≤ w) (hw2 : w ≤ 2147483647) :
    ∃ calls, scrollerFrame columns ⟨w, h, img, k⟩ = some calls := by
  have hwm : w % 4294967296 = w := Int.emod_eq_of_lt (by omega) (by omega)
  have hne : ¬ (w = 0) := by omega
  refine ⟨(intRange 0 columns).flatMap (fun x =>
    (intRange 0 32).map (fun y =>
      ScrollerCall.mk (columns - x) (31 - y)
        (getPixel ⟨w, h, img, k⟩
          (if ((k : Int) + x % 4294967296) % 4294967296 % w ≤ 2147483647
           then ((k : Int) + x % 4294967296) % 4294967296 % w
           else ((k : Int) + x % 4294967296) % 4294967296 % w - 4294967296) y))), ?_⟩
  unfold scrollerFrame
  rw [← collect_map_some]
  congr 1
  rw [List.map_flatMap]
  apply List.flatMap_congr
  intro x _
  rw [List.map_map]
  apply List.map_congr_left
  intro y _
  simp only [Function.comp, scrollerCall, scrollColumn, hwm, hne, if_false]

/-- After `n` frames of a loaded image the position is the start position plus
`n`, reduced modulo `2^32`; width, height and pixels are unchanged. -/
theorem scrollerRun_position (w h : Int) (img : List Pixel) (columns : Int) (n k : Nat)
    (hw1 : 1 ≤ w) (hw2 : w ≤ 2147483647) :
    scrollerRun columns n ⟨w, h, some img, k⟩ =
      some ⟨w, h, some img, if n = 0 then k else (k + n) % 4294967296⟩ := by
  induction n generalizing k with
  | zero => rfl
  | succ n ih =>
    obtain ⟨calls, hc⟩ := scrollerFrame_defined w h (some img) k columns hw1 hw2
    simp only [scrollerRun, scrollerRunStep, hc]
    rw [ih]
    congr 2
    by_cases hn : n = 0
    · subst hn; simp
    · simp only [hn, if_false, Nat.succ_ne_zero]
      omega

theorem length_flatMap_const {α β : Type} (l : List α) (f : α → List β) (n : Nat)
    (h : ∀ a, (f a).length = n) : (l.flatMap f).length = l.length * n := by
  induction l with
  | nil => simp
  | cons a l ih =>
    rw [List.flatMap_cons, List.length_append, ih, h a, List.length_cons]
    ring

/-- C13 (as stated, refuted): for an image 3 pixels wide, after `2^32` frames
the 32-bit position is back at 0 and canvas column 0 samples image column 0,
while `(2^32 + 0) mod 3 = 1`. -/
theorem scroll_offset_wraps_at_two_pow_32 :
    ∃ s, scrollerRun 32 4294967296
        ⟨3, 1, some [Pixel.mk 1 2 3, Pixel.mk 4 5 6, Pixel.mk 7 8 9], 0⟩ = some s ∧
      s.horizontal_position_ = 0 ∧ scrollColumn s 0 = some 0 ∧
      ((4294967296 : Int) + 0) % 3 = 1 := by
  refine ⟨_, scrollerRun_position 3 1 _ 32 4294967296 0 (by decide) (by decide), ?_, ?_, ?_⟩
  · decide
  · decide
  · decide

/-- C13 (amended): for a loaded image of width `w ≥ 1`, after `N` completed
frames the position is `N mod 2^32`, and for every canvas column `x ≥ 0` with
`N + x < 2^32` the image column sampled is `(N + x) mod w`. -/
theorem scroll_offset (w h : Int) (img : List Pixel) (columns : Int) (N : Nat)
    (hw1 : 1 ≤ w) (hw2 : w ≤ 2147483647) :
    ∃ s, scrollerRun columns N ⟨w, h, some img, 0⟩ = some s ∧
      s.horizontal_position_ = N % 4294967296 ∧
      ∀ x : Int, 0 ≤ x → (N : Int) + x < 4294967296 →
        scrollColumn s x = some (((N : Int) + x) % w) := by
  refine ⟨_, scrollerRun_position w h img columns N 0 hw1 hw2, ?_, ?_⟩
  · by_cases hn : N = 0
    · subst hn; rfl
    · simp [hn]
  · intro x hx hNx
    have hN : N < 4294967296 := by omega
    have hpos : (if N = 0 then 0 else (0 + N) % 4294967296) = N := by
      by_cases hn : N = 0
      · subst hn; rfl
      · simp only [hn, if_false]; omega
    rw [hpos]
    exact scrollColumn_no_wrap w h (some img) N x hw1 hw2 hx hNx

/-- C13 (amended), for an image 3 pixels wide after 7 frames on a canvas of 32
columns: canvas column 4 samples image column `(7 + 4) mod 3 = 2`. -/
theorem scroll_offset_witness :
    ((1 : Int) ≤ 3 ∧ (3 : Int) ≤ 2147483647) ∧
    ∃ s, scrollerRun 32 7 ⟨3, 1, some [Pixel.mk 1 2 3, Pixel.mk 4 5 6, Pixel.mk 7 8 9], 0⟩ =
        some s ∧ s.horizontal_position_ = 7 ∧ scrollColumn s 4 = some 2 := by
  refine ⟨⟨by decide, by decide⟩, ?_⟩
  obtain ⟨s, hs, hp, hc⟩ :=
    scroll_offset 3 1 [Pixel.mk 1 2 3, Pixel.mk 4 5 6, Pixel.mk 7 8 9] 32 7 (by decide)
      (by decide)
  exact ⟨s, hs, hp, hc 4 (by decide) (by decide)⟩

/-- C14 (the code at the failing input): on a 2 x 2 image `getPixel(0, 2)`
passes the test `y > height_` and refers to `image_[4]`, outside the four
pixels; `getPixel(2, 0)` passes `x > width_` and refers to `image_[2]`, the
pixel (0, 1), not to the black dummy. -/
theorem getPixel_at_width_or_height_reads_image :
    getPixel ⟨2, 2, some [Pixel.mk 1 2 3, Pixel.mk 4 5 6, Pixel.mk 7 8 9, Pixel.mk 10 11 12], 0⟩
        0 2 = PixelRef.image 4 ∧
    readPixel ⟨2, 2, some [Pixel.mk 1 2 3, Pixel.mk 4 5 6, Pixel.mk 7 8 9, Pixel.mk 10 11 12], 0⟩
        (PixelRef.image 4) = none ∧
    getPixel ⟨2, 2, some [Pixel.mk 1 2 3, Pixel.mk 4 5 6, Pixel.mk 7 8 9, Pixel.mk 10 11 12], 0⟩
        2 0 = PixelRef.image 2 ∧
    readPixel ⟨2, 2, some [Pixel.mk 1 2 3, Pixel.mk 4 5 6, Pixel.mk 7 8 9, Pixel.mk 10 11 12], 0⟩
        (PixelRef.image 2) = some (Pixel.mk 7 8 9) := by
  decide

/-- C15 (as stated, refuted): for the image 3 pixels wide at position
`k = 2^32 - 1` (reached after that many frames), the call for canvas column
`x = 1`, row 0, samples image column 0, while `(k + 1) mod 3 = 1`: the sum wraps
in 32 bits. And a loaded image of width 0 has no frame at all: the remainder
divides by zero. -/
theorem scroller_frame_samples_wrapped_column :
    (∃ s, scrollerRun 32 4294967295
        ⟨3, 1, some [Pixel.mk 1 2 3, Pixel.mk 4 5 6, Pixel.mk 7 8 9], 0⟩ = some s ∧
      s.horizontal_position_ = 4294967295 ∧
      scrollerCall 32 s 1 0 = some ⟨31, 31, PixelRef.image 0⟩ ∧
      getPixel s ((((4294967295 : Nat) : Int) + 1) % 3) 0 = PixelRef.image 1) ∧
    scrollerFrame 32 ⟨0, 2, some [], 0⟩ = none := by
  refine ⟨⟨_, scrollerRun_position 3 1 _ 32 4294967295 0 (by decide) (by decide), ?_, ?_, ?_⟩,
    ?_⟩
  · decide
  · decide
  · decide
  · decide

/-- C15 (amended): for a loaded image of width `w ≥ 1` at scroll position `k`
(the value of `horizontal_position_`) and a
canvas of `W` columns with `k + W ≤ 2^32`, one frame is, in loop order, one
call for every `x` in `[0, W)` and `y` in `[0, 32)`, at `(W - x, 31 - y)`,
with the colour of `getPixel((k + x) mod w, y)`, `32 * W` calls in all; and for
the 2 x 2 all-red image every sample with `y < 2` reads (255, 0, 0). -/
theorem scroller_frame_mapping (w h : Int) (img : List Pixel) (k : Nat) (W : Int)
    (hw1 : 1 ≤ w) (hw2 : w ≤ 2147483647) (hk : (k : Int) + W ≤ 4294967296) :
    (∃ calls, scrollerFrame W ⟨w, h, some img, k⟩ = some calls ∧
      calls = (intRange 0 W).flatMap (fun x =>
        (intRange 0 32).map (fun y =>
          ScrollerCall.mk (W - x) (31 - y)
            (getPixel ⟨w, h, some img, k⟩ (((k : Int) + x) % w) y))) ∧
      calls.length = 32 * W.toNat) ∧
    ∀ x y : Int, 0 ≤ x → x < W → 0 ≤ y → y < 2 →
      readPixel (redImage k) (getPixel (redImage k) (((k : Int) + x) % 2) y) =
        some (Pixel.mk 255 0 0) := by
  constructor
  · refine ⟨_, scrollerFrame_loaded w h (some img) k W hw1 hw2 hk, rfl, ?_⟩
    rw [length_flatMap_const _ _ 32 (fun x => by rw [List.length_map, intRange_length]; rfl),
      intRange_length]
    simp only [Int.sub_zero]
    omega
  · intro x y hx0 _ hy0 hy2
    have hc0 : 0 ≤ ((k : Int) + x) % 2 := Int.emod_nonneg _ (by decide)
    have hc1 : ((k : Int) + x) % 2 < 2 := Int.emod_lt_of_pos _ (by decide)
    have hcol : ((k : Int) + x) % 2 = 0 ∨ ((k : Int) + x) % 2 = 1 := by omega
    have hrow : y = 0 ∨ y = 1 := by omega
    rcases hcol with hc | hc <;> rcases hrow with hr | hr <;> rw [hc, hr] <;> rfl

/-- C15 (amended), for the 2 x 2 all-red image at position 5 on a canvas of 32
columns:
the frame has 1024 calls, and the sample for `x = 3`, `y = 1` is red. -/
theorem scroller_frame_mapping_witness :
    ((1 : Int) ≤ 2 ∧ (2 : Int) ≤ 2147483647 ∧ ((5 : Nat) : Int) + 32 ≤ 4294967296) ∧
    (∃ calls, scrollerFrame 32 (redImage 5) = some calls ∧ calls.length = 32 * 32) ∧
    readPixel (redImage 5) (getPixel (redImage 5) ((((5 : Nat) : Int) + 3) % 2) 1) =
      some (Pixel.mk 255 0 0) := by
  have h := scroller_frame_mapping 2 2
    [Pixel.mk 255 0 0, Pixel.mk 255 0 0, Pixel.mk 255 0 0, Pixel.mk 255 0 0] 5 32
    (by decide) (by decide) (by decide)
  refine ⟨⟨by decide, by decide, by decide⟩, ?_, ?_⟩
  · obtain ⟨calls, hc, _, hl⟩ := h.1
    exact ⟨calls, hc, hl⟩
  · exact h.2 3 1 (by decide) (by decide) (by decide) (by decide)

/-- C20 (the code at the failing input): on a canvas of 32 columns the first
call of the frame of the 2 x 2 all-red image goes to column 32, outside
`[0, 32)`, and no call of the frame goes to column 0. -/
theorem scroller_writes_column_W_not_column_0 :
    ∃ calls, scrollerFrame 32 (redImage 0) = some calls ∧
      calls.head? = some ⟨32, 31, PixelRef.image 0⟩ ∧
      ∀ c ∈ calls, 1 ≤ c.disp_x ∧ c.disp_x ≤ 32 := by
  refine ⟨_, scrollerFrame_loaded 2 2 _ 0 32 (by decide) (by decide) (by decide), ?_, ?_⟩
  · decide
  · intro c hc
    simp only [List.mem_flatMap, List.mem_map, mem_intRange] at hc
    obtain ⟨x, hx, y, _, rfl⟩ := hc
    simp only
    omega

/-! ## RotatingBlockGenerator -/

theorem scale_col_eq (v : Int) (h5 : 5 ≤ v) (h27 : v ≤ 27) :
    scale_col v 5 27 = (255 * (v - 5)) / 22 := by
  have h1 : ¬ v < 5 := by omega
  have h2 : ¬ v > 27 := by omega
  have h3 : Int.tdiv (255 * (v - 5)) (27 - 5) = (255 * (v - 5)) / 22 := by
    rw [Int.tdiv_eq_ediv (by omega) (by decide)]
    rfl
  simp only [scale_col, h1, h2, if_false, h3]
  omega

set_option maxRecDepth 100000 in
theorem blockCoordinates_square_count :
    (blockCoordinates.filter
      (fun p => decide (5 ≤ p.1 ∧ p.1 ≤ 27 ∧ 5 ≤ p.2 ∧ p.2 ≤ 27))).length = 529 := by
  decide

/-- C17: for every source coordinate `(x, y)` in `[-8, 40) x [-8, 40)` the
colour is `(s(x), 255 - s(y), s(y))` inside the square `5 ≤ x, y ≤ 27`, with
`s(v) = scale_col(v, 5, 27) = floor(255 * (v - 5) / 22)`; pure red at (16, 3),
pure green at (3, 16), pure blue at (29, 16); black everywhere else. `s` is
monotone with values in [0, 255], `s(5) = 0` and `s(27) = 255`, and the square
holds 529 of the coordinates visited. -/
theorem block_colour_classification :
    (∀ x y : Int, -8 ≤ x → x < 40 → -8 ≤ y → y < 40 →
      blockColour x y =
        if 5 ≤ x ∧ x ≤ 27 ∧ 5 ≤ y ∧ y ≤ 27 then
          ((255 * (x - 5)) / 22, 255 - (255 * (y - 5)) / 22, (255 * (y - 5)) / 22)
        else if x = 16 ∧ y = 3 then (255, 0, 0)
        else if x = 3 ∧ y = 16 then (0, 255, 0)
        else if x = 29 ∧ y = 16 then (0, 0, 255)
        else (0, 0, 0)) ∧
    (∀ v : Int, 5 ≤ v → v ≤ 27 →
      scale_col v 5 27 = (255 * (v - 5)) / 22 ∧ 0 ≤ scale_col v 5 27 ∧
        scale_col v 5 27 ≤ 255) ∧
    (∀ u v : Int, 5 ≤ u → u ≤ v → v ≤ 27 → scale_col u 5 27 ≤ scale_col v 5 27) ∧
    scale_col 5 5 27 = 0 ∧ scale_col 27 5 27 = 255 ∧
    (blockCoordinates.filter
      (fun p => decide (5 ≤ p.1 ∧ p.1 ≤ 27 ∧ 5 ≤ p.2 ∧ p.2 ≤ 27))).length = 529 := by
  refine ⟨?_, ?_, ?_, by decide, by decide, blockCoordinates_square_count⟩
  · intro x y _ _ _ _
    unfold blockColour
    by_cases hsq : 5 ≤ x ∧ x ≤ 27 ∧ 5 ≤ y ∧ y ≤ 27
    · have hc : x ≥ 5 ∧ x < 28 ∧ y ≥ 5 ∧ y < 28 := by omega
      rw [if_pos hc, if_pos hsq, scale_col_eq x hsq.1 hsq.2.1,
        scale_col_eq y hsq.2.2.1 hsq.2.2.2]
    · have hc : ¬ (x ≥ 5 ∧ x < 28 ∧ y ≥ 5 ∧ y < 28) := by omega
      rw [if_neg hc, if_neg hsq]
  · intro v h5 h27
    rw [scale_col_eq v h5 h27]
    refine ⟨rfl, ?_, ?_⟩ <;> omega
  · intro u v h5 huv h27
    rw [scale_col_eq u h5 (by omega), scale_col_eq v (by omega) h27]
    omega

/-- C17, at the centre (16, 16) and at the red marker (16, 3): the colours are
(127, 128, 127) and (255, 0, 0). -/
theorem block_colour_classification_witness :
    blockColour 16 16 = (127, 128, 127) ∧ blockColour 16 3 = (255, 0, 0) ∧
      scale_col 10 5 27 ≤ scale_col 20 5 27 := by
  refine ⟨?_, ?_, ?_⟩
  · rw [block_colour_classification.1 16 16 (by decide) (by decide) (by decide) (by decide)]
    decide
  · rw [block_colour_classification.1 16 3 (by decide) (by decide) (by decide) (by decide)]
    decide
  · exact block_colour_classification.2.2.1 10 20 (by decide) (by decide) (by decide)

/-! ## The palette -/

theorem colours_brightness_pairs :
    ∀ i j : Fin 32, i < j →
      (i.val = 20 ∧ j.val = 21) ∨ (i.val = 25 ∧ j.val = 26) ∨
        brightness (colours.getD i.val 0) ≤ brightness (colours.getD j.val 0) := by
  decide

/-- C18 (as stated, refuted): entry 21 of the table, `0xC78717`, follows entry
20, `0xCF8717`, and has the smaller channel sum (357 against 365) and the
smaller Rec. 601 luma (weights 299, 587, 114): it differs only by less red. -/
theorem colours_entry_21_darker_than_20 :
    colours.length = 32 ∧ colours[20]? = some 0xCF8717 ∧ colours[21]? = some 0xC78717 ∧
      brightness 0xC78717 = 357 ∧ brightness 0xCF8717 = 365 ∧
      weightedBrightness 299 587 114 0xC78717 < weightedBrightness 299 587 114 0xCF8717 := by
  decide

/-- C18 (amended): the table has exactly 32 entries and, for every pair of
indices `i < j` below 32 other than (20, 21) and (25, 26), the channel sum
R + G + B of entry `j` is at least that of entry `i`. -/
theorem colours_brightness_monotone_except_two (i j : Nat) (hij : i < j) (hj : j < 32)
    (h1 : ¬ (i = 20 ∧ j = 21)) (h2 : ¬ (i = 25 ∧ j = 26)) :
    colours.length = 32 ∧
      brightness (colours.getD i 0) ≤ brightness (colours.getD j 0) := by
  refine ⟨rfl, ?_⟩
  have h := colours_brightness_pairs ⟨i, by omega⟩ ⟨j, hj⟩ (by simpa using hij)
  rcases h with h | h | h
  · exact absurd h h1
  · exact absurd h h2
  · exact h

/-- C18 (amended), for the entries 20 and 22: 365 ≤ 381. -/
theorem colours_brightness_monotone_except_two_witness :
    (20 < 22 ∧ 22 < 32) ∧ colours.length = 32 ∧
      brightness (colours.getD 20 0) ≤ brightness (colours.getD 22 0) :=
  ⟨⟨by decide, by decide⟩,
    colours_brightness_monotone_except_two 20 22 (by decide) (by decide) (by decide)
      (by decide)⟩

/-! ## The maxval line -/

theorem fgetsAux_eof (n : Nat) (l : List Nat) (hl : l.length ≤ n) (hnl : ∀ c ∈ l, c ≠ 10) :
    fgetsAux n l = (l, []) := by
  induction l generalizing n with
  | nil => cases n <;> rfl
  | cons c l ih =>
    cases n with
    | zero => simp at hl
    | succ n =>
      have hc : c ≠ 10 := hnl c (List.mem_cons_self _ _)
      have := ih n (by simpa using hl) (fun d hd => hnl d (List.mem_cons_of_mem _ hd))
      simp [fgetsAux, hc, this]

/-- An unterminated last line of at most 254 characters that does not start
with `#` is what `ReadLine` returns, and the stream is then at its end. -/
theorem ReadLine_last_line (l : List Nat) (hne : l ≠ []) (hl : l.length ≤ 254)
    (hnl : ∀ c ∈ l, c ≠ 10) (hh : l.head? ≠ some 35) :
    ReadLine l = (some l, []) := by
  have h1 := fgetsAux_eof 255 l (by omega) hnl
  cases l with
  | nil => exact absurd rfl hne
  | cons c l =>
    have hc : c ≠ 35 := by simpa using hh
    rw [ReadLine, List.length_cons, ReadLineLoop_cons, h1]
    simp [hc]

theorem ReadLine_nil : ReadLine [] = (none, []) := rfl

/-- On a file whose first two lines, with comments before them, fit the line
buffer and whose dimension line converts to `w` and `h`, `LoadPPM` returns
false at the magic test or hands on to the maxval stage. -/
theorem LoadPPM_to_maxval (heap : Nat → Nat) (s : ImageScroller)
    (cs1 cs2 : List (List Nat)) (l1 l2 rest : List Nat) (w h : Int)
    (h1 : isHeaderLine l1 = true) (h2 : isHeaderLine l2 = true)
    (hc1 : ∀ c ∈ cs1, isCommentLine c = true) (hc2 : ∀ c ∈ cs2, isCommentLine c = true)
    (hd : sscanf (cstr (l2 ++ [10])) fmtDims = some (2, [w, h])) :
    (∃ s1, LoadPPM heap s (some (joinLines cs1 ++ (l1 ++ 10 :: (joinLines cs2 ++
        (l2 ++ 10 :: rest))))) = some (false, s1)) ∨
      LoadPPM heap s (some (joinLines cs1 ++ (l1 ++ 10 :: (joinLines cs2 ++
        (l2 ++ 10 :: rest))))) =
        LoadPPM_maxval heap ⟨w, h, none, s.horizontal_position_⟩ rest := by
  have a1 := ReadLine_commented_line cs1 l1 (joinLines cs2 ++ (l2 ++ 10 :: rest)) hc1 h1
  have a2 := ReadLine_commented_line cs2 l2 rest hc2 h2
  obtain ⟨res, hm⟩ := sscanf_magic_some (cstr (l1 ++ [10]))
  rw [LoadPPM_of_line heap s _ _ _ res a1 hm]
  by_cases hE : res.1 = EOF
  · left
    rw [if_pos hE]
    exact ⟨_, rfl⟩
  · right
    rw [if_neg hE]
    unfold LoadPPM_dims
    simp only [a2, hd]
    simp

set_option maxRecDepth 20000 in
/-- C6 (as stated, refuted): in this file the third line that does not begin
with `#` is `254`, yet `LoadPPM` returns true: the comment line before it has
258 characters, `fgets` takes 255 of them and the rest of the comment, `255`,
is read as the maxval line. -/
theorem LoadPPM_accepts_maxval_from_comment_tail :
    thirdNonCommentLine ([80, 54, 10, 49, 32, 49, 10] ++ (35 :: List.replicate 254 120) ++
        [50, 53, 53, 10, 50, 53, 52, 10, 1, 2, 3]) = some [50, 53, 52] ∧
    scanInt (cstr [50, 53, 52]) = IntScan.ok 254 [] ∧
    LoadPPM (fun _ => 0) ⟨5, 5, none, 0⟩
        (some ([80, 54, 10, 49, 32, 49, 10] ++ (35 :: List.replicate 254 120) ++
          [50, 53, 53, 10, 50, 53, 52, 10, 1, 2, 3])) =
      some (true, ⟨1, 1, some [Pixel.mk 50 53 52], 0⟩) := by
  decide

/-- C6 (amended): take a file whose header lines and comment lines have at most
254 characters before their newline and whose dimension line converts to two
integers that fit an `int`. If the third non-comment line is missing, or holds
no integer for `%d`, or holds an integer that fits an `int` and is not 255,
then `LoadPPM` returns false. The third line may end the file without a
newline. -/
theorem LoadPPM_maxval_check (heap : Nat → Nat) (s : ImageScroller)
    (cs1 cs2 cs3 : List (List Nat)) (l1 l2 tail : List Nat) (w h : Int)
    (h1 : isHeaderLine l1 = true) (h2 : isHeaderLine l2 = true)
    (hc1 : ∀ c ∈ cs1, isCommentLine c = true) (hc2 : ∀ c ∈ cs2, isCommentLine c = true)
    (hc3 : ∀ c ∈ cs3, isCommentLine c = true)
    (hd : sscanf (cstr (l2 ++ [10])) fmtDims = some (2, [w, h]))
    (h3 : tail = [] ∨
      ∃ l3 buf, isHeaderLine l3 = true ∧
        ((∃ rest, tail = l3 ++ 10 :: rest ∧ buf = l3 ++ [10]) ∨
          (l3 ≠ [] ∧ tail = l3 ∧ buf = l3)) ∧
        (scanInt (cstr buf) = IntScan.inputFailure ∨
          scanInt (cstr buf) = IntScan.matchFailure ∨
          ∃ v rest, scanInt (cstr buf) = IntScan.ok v rest ∧ v ≠ 255)) :
    ∃ s1, LoadPPM heap s (some (joinLines cs1 ++ (l1 ++ 10 :: (joinLines cs2 ++
      (l2 ++ 10 :: (joinLines cs3 ++ tail)))))) = some (false, s1) := by
  rcases LoadPPM_to_maxval heap s cs1 cs2 l1 l2 (joinLines cs3 ++ tail) w h h1 h2 hc1 hc2 hd
    with hf | hm
  · exact hf
  · rw [hm]
    refine ⟨_, LoadPPM_maxval_bad heap _ _ ?_⟩
    rw [ReadLine_joinLines cs3 tail hc3]
    rcases h3 with h3 | ⟨l3, buf, hl3, hshape, hscan⟩
    · left
      rw [h3]
      rfl
    · obtain ⟨hh, hlen, hn⟩ := isHeaderLine_iff l3 hl3
      have hline : (ReadLine tail).1 = some buf := by
        rcases hshape with ⟨rest, ht, hb⟩ | ⟨hne, ht, hb⟩
        · rw [ht, hb, ReadLine_line l3 rest hlen hn hh]
        · rw [ht, hb, ReadLine_last_line l3 hne hlen hn hh]
      right
      rcases hscan with hs | hs | ⟨v, rest, hs, hv⟩
      · exact Or.inl ⟨buf, hline, Or.inl hs⟩
      · exact Or.inl ⟨buf, hline, Or.inr hs⟩
      · exact Or.inr ⟨buf, v, rest, hline, hs, hv⟩

/-- C6 (amended), on the file `"P6\n2 2\n254\n"` with 12 bytes of pixels: the
third non-comment line is `254` and `LoadPPM` returns false. -/
theorem LoadPPM_maxval_check_witness :
    (sscanf (cstr [50, 32, 50, 10]) fmtDims = some (2, [2, 2]) ∧
      thirdNonCommentLine [80, 54, 10, 50, 32, 50, 10, 50, 53, 52, 10, 1, 2, 3, 4, 5, 6, 7, 8,
        9, 1, 2, 3] = some [50, 53, 52] ∧
      scanInt (cstr [50, 53, 52, 10]) = IntScan.ok 254 [10]) ∧
    ∃ s1, LoadPPM (fun _ => 0) ⟨5, 5, none, 0⟩
      (some [80, 54, 10, 50, 32, 50, 10, 50, 53, 52, 10, 1, 2, 3, 4, 5, 6, 7, 8, 9, 1, 2,
        3]) = some (false, s1) :=
  ⟨⟨by decide, by decide, by decide⟩,
    LoadPPM_maxval_check (fun _ => 0) ⟨5, 5, none, 0⟩ [] [] [] [80, 54] [50, 32, 50]
      [50, 53, 52, 10, 1, 2, 3, 4, 5, 6, 7, 8, 9, 1, 2, 3] 2 2
      (by decide) (by decide) (by simp) (by simp) (by simp) (by decide)
      (Or.inr ⟨[50, 53, 52], [50, 53, 52, 10], by decide,
        Or.inl ⟨[1, 2, 3, 4, 5, 6, 7, 8, 9, 1, 2, 3], by decide, by decide⟩,
        Or.inr (Or.inr ⟨254, [10], by decide, by decide⟩)⟩)⟩

end LedMatrix
